import Mathlib

/-!
Verification development for the route-search engine in `script.js` of the
mofutrainroute repository.  The JavaScript core (`buildGraph`, `dijkstra`,
`searchRoute`) is shallowly embedded below: JS numbers are modelled as exact
rationals (`ℚ`), JS objects used as string-keyed dictionaries are modelled as
association lists that preserve insertion order (the iteration order of
non-numeric-like string keys in JS), JS `Set`s as duplicate-free lists in
insertion order, and the composite string keys of the source
(`id_type`, `company-line`, `from->to`) as pairs, which agrees with the
source whenever the components contain no delimiter character.  `Math.sqrt`
is modelled by an exact integer Newton square root extended to `ℚ`
(agreeing with the float version on the perfect squares used in the concrete
networks below).  The crash that JS raises when `stations.find` yields
`undefined` and a field of it is read is modelled by returning `none`.
-/

namespace MofuRail

/-- A station record, shaped like the entries of `data/stations.json`:
`{id, name, x, y, company, line}`. -/
structure Station where
  id : String
  name : String
  x : ℚ
  y : ℚ
  company : String
  line : String
deriving DecidableEq, Repr

/-- One route of a service: `{company, line, stops: [stationId,...]}`. -/
structure RouteDef where
  company : String
  line : String
  stops : List String
deriving DecidableEq, Repr

/-- A service record: `{type, routes}`. -/
structure Service where
  type : String
  routes : List RouteDef
deriving DecidableEq, Repr

/-- A through-service rule from `data/through_services.json`.  The optional
direction fields model the JS truthiness checks `if (rule.directionFromA)`
(an absent or empty field skips the check; we model presence by `some`). -/
structure ThroughRule where
  stationIdA : String
  stationIdB : String
  companyA : String
  lineA : String
  companyB : String
  lineB : String
  types : List String
  directionFromA : Option String
  departureDirection : Option String
deriving DecidableEq, Repr

/-- A presence node `"id_type"` of the JS graph, modelled as the pair of its
two components. -/
structure Node where
  stationId : String
  serviceType : String
deriving DecidableEq, Repr

/-- An edge record pushed onto `edges` by `buildGraph`.  `fromN`/`toN` stand
for the JS fields `from`/`to` (`from` is a reserved word in Lean). -/
structure Edge where
  fromN : Node
  toN : Node
  time : ℚ
  dist : ℚ
  type : String
  company : String
  line : String
deriving DecidableEq, Repr

/-! ### Association lists with JS-object semantics -/

/-- Lookup `m[k]`: first (and by construction only) binding of `k`. -/
def lookupA {κ α : Type} [DecidableEq κ] (m : List (κ × α)) (k : κ) : Option α :=
  (m.find? (fun kv => kv.1 = k)).map (·.2)

/-- Assignment `m[k] = v`: overwrite in place if present, else append.
This preserves the JS object key-iteration order (insertion order). -/
def setA {κ α : Type} [DecidableEq κ] (m : List (κ × α)) (k : κ) (v : α) : List (κ × α) :=
  match m with
  | [] => [(k, v)]
  | kv :: rest => if kv.1 = k then (k, v) :: rest else kv :: setA rest k v

/-- `Set.prototype.add`: append if absent (JS `Set` keeps insertion order). -/
def addElem {α : Type} [DecidableEq α] (l : List α) (a : α) : List α :=
  if a ∈ l then l else l ++ [a]

/-- All ordered pairs `(l[i], l[j])` with `i < j`, in the iteration order of
the JS double loop `for i; for j = i+1`. -/
def orderedPairs {α : Type} : List α → List (α × α)
  | [] => []
  | a :: rest => rest.map (fun b => (a, b)) ++ orderedPairs rest

/-- Consecutive pairs `(l[i], l[i+1])`, the iteration space of the JS loops
`for (i = 0; i < arr.length - 1; i++)`. -/
def consecPairs {α : Type} : List α → List (α × α)
  | a :: b :: rest => (a, b) :: consecPairs (b :: rest)
  | _ => []

/-! ### Numeric model of `Math.sqrt` -/

/-- Integer Newton iteration bounded by explicit fuel (so that it reduces in
the kernel): from a guess above the root it descends to the floor root. -/
def sqrtIter (n : Nat) : Nat → Nat → Nat
  | 0, guess => guess
  | fuel+1, guess =>
    let next := (guess + n / guess) / 2
    if next < guess then sqrtIter n fuel next else guess

/-- Floor integer square root (same algorithm as the standard Newton one,
with fuel instead of well-founded recursion). -/
def natSqrt (n : Nat) : Nat := if n ≤ 1 then n else sqrtIter n (n + 2) (n / 2)

/-- Model of `Math.sqrt` on the nonnegative rationals produced by the
coordinate arithmetic of the source; exact on perfect squares. -/
def ratSqrt (q : ℚ) : ℚ := mkRat (natSqrt q.num.toNat) (natSqrt q.den)

/-- `Math.sqrt((sA.x - sB.x)**2 + (sA.y - sB.y)**2)`. -/
def euclid (sA sB : Station) : ℚ :=
  ratSqrt ((sA.x - sB.x) ^ 2 + (sA.y - sB.y) ^ 2)

/-! ### buildGraph: constants and pass 1 (physical line data) -/

def TRAIN_SPEED : ℚ := 15
def STOP_TIME : ℚ := 5
def TRANSFER_TIME : ℚ := 15
def WALK_SPEED_MPS : ℚ := 4
def MAX_WALK_DISTANCE_M : ℚ := 150
def THROUGH_SERVICE_TIME : ℚ := 1
def PLATFORM_TRANSFER_TIME : ℚ := 10

/-- A `segmentCache` entry `{dist, time}`. -/
structure Seg where
  dist : ℚ
  time : ℚ
deriving DecidableEq, Repr

/-- Line key `` `${route.company}-${route.line}` ``, modelled as the pair. -/
abbrev LineKey := String × String

/-- Segment-cache key `` `${fromId}->${toId}` ``, modelled as the pair. -/
abbrev SegKey := String × String

abbrev OrderMap := List (LineKey × List (String × Nat))
abbrev SegCache := List (LineKey × List (SegKey × Seg))

/-- The service types whose routes teach physical topology
(`["普通", "普通(南)", "準急", "ダミー"].includes(service.type)`). -/
def baseRouteTypes : List String := ["普通", "普通(南)", "準急", "ダミー"]

/-- The body of the pass-1 loop over the stops of one base route, carried
over the stop list with the running index `i`: records first-seen ordinals
and caches both directions of each adjacent segment whose two stations are
found; a failed station lookup skips the cache entry. -/
def baseStopsPass (stations : List Station) :
    List String → Nat → List (String × Nat) → List (SegKey × Seg) →
    List (String × Nat) × List (SegKey × Seg)
  | [], _, om, sc => (om, sc)
  | stopId :: rest, i, om, sc =>
    let om' := if (lookupA om stopId).isSome then om else setA om stopId i
    let sc' :=
      match rest with
      | [] => sc
      | toId :: _ =>
        if (lookupA sc (stopId, toId)).isSome then sc
        else
          match stations.find? (fun s => s.id = stopId),
                stations.find? (fun s => s.id = toId) with
          | some sA, some sB =>
            let dist := euclid sA sB
            let time := dist / TRAIN_SPEED + STOP_TIME
            setA (setA sc (stopId, toId) ⟨dist, time⟩) (toId, stopId) ⟨dist, time⟩
          | _, _ => sc
    baseStopsPass stations rest (i + 1) om' sc'

/-- Pass 1 over one route: fetch-or-create the per-line maps, run the stop
loop, store the updated inner maps back. -/
def baseRoutePass (stations : List Station) (acc : OrderMap × SegCache)
    (route : RouteDef) : OrderMap × SegCache :=
  let lineKey : LineKey := (route.company, route.line)
  let om0 := if (lookupA acc.1 lineKey).isSome then acc.1 else setA acc.1 lineKey []
  let sc0 := if (lookupA acc.2 lineKey).isSome then acc.2 else setA acc.2 lineKey []
  let inner := baseStopsPass stations route.stops 0
    ((lookupA om0 lineKey).getD []) ((lookupA sc0 lineKey).getD [])
  (setA om0 lineKey inner.1, setA sc0 lineKey inner.2)

/-- Pass 1 (`=== 1. 物理路線データの生成 ===`): learn station order and
segment distance/time from the base service types. -/
def buildBase (stations : List Station) (services : List Service) :
    OrderMap × SegCache :=
  services.foldl (fun acc service =>
    if service.type ∈ baseRouteTypes then
      service.routes.foldl (baseRoutePass stations) acc
    else acc) ([], [])

/-! ### buildGraph: pass 2 (per-service ride edges) -/

/-- The mirrored pair of edges pushed by each `edges.push` couple of the
source; the two directions share every field except that pass 4 gives each
direction its own source-station company (`c1` forward, `c2` backward). -/
def pairC (n1 n2 : Node) (time dist : ℚ) (ty c1 c2 line : String) : List Edge :=
  [⟨n1, n2, time, dist, ty, c1, line⟩, ⟨n2, n1, time, dist, ty, c2, line⟩]

/-- The hop indices `j` visited by the JS loop
`for (j = idxFrom; j !== idxTo; j += direction)`. -/
def hopIndices (idxFrom idxTo : Nat) : List Nat :=
  if idxFrom < idxTo then List.range' idxFrom (idxTo - idxFrom)
  else (List.range' (idxTo + 1) (idxFrom - idxTo)).reverse

/-- The cache key consulted for hop `j`
(`(direction === 1) ? fromId->toId : toId->fromId`). -/
def hopKey (fullIds : List String) (idxFrom idxTo j : Nat) : SegKey :=
  let segFrom := (fullIds.get? j).getD ""
  let segTo := (fullIds.get? (if idxFrom < idxTo then j + 1 else j - 1)).getD ""
  if idxFrom < idxTo then (segFrom, segTo) else (segTo, segFrom)

/-- `totalDist` accumulation of pass 2: sum the cached distances of every
intermediate physical hop, silently skipping hops missing from the cache. -/
def hopDist (segs : List (SegKey × Seg)) (fullIds : List String)
    (idxFrom idxTo : Nat) : ℚ :=
  (hopIndices idxFrom idxTo).foldl (fun total j =>
    match lookupA segs (hopKey fullIds idxFrom idxTo j) with
    | some segData => total + segData.dist
    | none => total) 0

/-- Accumulator of pass 2: the growing edge list and `stationStops`. -/
structure Pass2Acc where
  edges : List Edge
  stationStops : List (String × List String)
deriving Repr

/-- `stationStops[id].add(type)` including creation of the `Set`. -/
def addStop (m : List (String × List String)) (id ty : String) :
    List (String × List String) :=
  setA m id (addElem ((lookupA m id).getD []) ty)

/-- The body of the pass-2 loop over one consecutive stop pair: the
hard-coded `普通 IK01->IK02` exception, the two `indexOf` lookups, the hop
accumulation, the mirrored ride-edge pair and the stop registration. -/
def pass2Pair (segs : List (SegKey × Seg)) (fullIds : List String)
    (serviceType company line : String) (acc : Pass2Acc) (pr : String × String) :
    Pass2Acc :=
  if serviceType = "普通" ∧ pr.1 = "IK01" ∧ pr.2 = "IK02" then acc
  else
    match fullIds.findIdx? (fun x => x = pr.1), fullIds.findIdx? (fun x => x = pr.2) with
    | some idxFrom, some idxTo =>
      let totalDist := hopDist segs fullIds idxFrom idxTo
      let totalTime := totalDist / TRAIN_SPEED + STOP_TIME
      { edges := acc.edges ++
          pairC ⟨pr.1, serviceType⟩ ⟨pr.2, serviceType⟩ totalTime totalDist
            serviceType company company line,
        stationStops := addStop (addStop acc.stationStops pr.1 serviceType) pr.2 serviceType }
    | _, _ => acc

/-- Pass 2 over one route: sort the full line station ids by ordinal
(a stable ascending sort, as JS `Array.prototype.sort` with a numeric
comparator) and fold the pair loop. -/
def pass2Route (om : OrderMap) (sc : SegCache) (serviceType : String)
    (acc : Pass2Acc) (route : RouteDef) : Pass2Acc :=
  let lineKey : LineKey := (route.company, route.line)
  match lookupA om lineKey with
  | none => acc
  | some lineOrderMap =>
    let fullLineStationIds := (lineOrderMap.map Prod.fst).insertionSort
      (fun a b => (lookupA lineOrderMap a).getD 0 ≤ (lookupA lineOrderMap b).getD 0)
    let segs := (lookupA sc lineKey).getD []
    (consecPairs route.stops).foldl
      (pass2Pair segs fullLineStationIds serviceType route.company route.line) acc

/-- Pass 2 (`=== 2. 運行種別ごとのエッジ生成 ===`): ride edges for every
non-dummy service, skipping lines without a base route. -/
def pass2 (om : OrderMap) (sc : SegCache) (services : List Service) : Pass2Acc :=
  services.foldl (fun acc service =>
    if service.type = "ダミー" then acc
    else service.routes.foldl (pass2Route om sc service.type) acc) ⟨[], []⟩

/-! ### buildGraph: pass 3 (same-station transfers) -/

/-- The hard-coded NY10 exclusion
(`(set.has 普通 && set.has 普通(南)) || (set.has 快速 && set.has 快速(南))`). -/
def ny10Excluded (type1 type2 : String) : Prop :=
  ((type1 = "普通" ∨ type2 = "普通") ∧ (type1 = "普通(南)" ∨ type2 = "普通(南)")) ∨
  ((type1 = "快速" ∨ type2 = "快速") ∧ (type1 = "快速(南)" ∨ type2 = "快速(南)"))

instance (type1 type2 : String) : Decidable (ny10Excluded type1 type2) := by
  unfold ny10Excluded; infer_instance

/-- Pass 3 for one station entry: loop over the unordered type pairs.  A
non-excluded pair reads `station.company`/`station.line` where `station`
is `stations.find(...)`; when that lookup failed, JS raises a `TypeError`
reading the field of `undefined` — modelled by `none`. -/
def pass3Station (stations : List Station) (stationId : String)
    (types : List String) (acc : List Edge) : Option (List Edge) :=
  (orderedPairs types).foldl (fun oacc pr =>
    oacc.bind (fun es =>
      if stationId = "NY10" ∧ ny10Excluded pr.1 pr.2 then some es
      else
        match stations.find? (fun s => s.id = stationId) with
        | none => none
        | some station =>
          some (es ++ pairC ⟨stationId, pr.1⟩ ⟨stationId, pr.2⟩ TRANSFER_TIME 0
            "乗換" station.company station.company station.line))) (some acc)

/-- Pass 3 (`=== 3. 同一駅での乗換エッジ生成 ===`): transfers between the
service types present at each station with at least two of them. -/
def pass3 (stations : List Station)
    (stationStops : List (String × List String)) : Option (List Edge) :=
  stationStops.foldl (fun oacc entry =>
    oacc.bind (fun es =>
      if entry.2.length ≤ 1 then some es
      else pass3Station stations entry.1 entry.2 es)) (some [])

/-! ### buildGraph: pass 4 (proximity / through / in-station edges) -/

/-- The regex `replace(/(?:\(南\)|\(白馬\))/g, "")` on the character list:
left-to-right, first alternative first, non-overlapping. -/
def stripVariant : List Char → List Char
  | '(' :: '南' :: ')' :: rest => stripVariant rest
  | '(' :: '白' :: '馬' :: ')' :: rest => stripVariant rest
  | c :: rest => c :: stripVariant rest
  | [] => []

/-- Base service type obtained by stripping the regional-variant suffixes. -/
def baseTypeOf (s : String) : String := String.mk (stripVariant s.data)

/-- The `edgeInfo` selection of pass 4 for one co-located type pair:
default in-station transfer, upgraded to a through edge when the base types
agree and a through rule matching the station pair in either order lists
that base type.  Returns `(type, line, time)`. -/
def colocatedEdgeInfo (throughServices : List ThroughRule) (sA sB : Station)
    (typeA typeB : String) : String × String × ℚ :=
  let baseTypeA := baseTypeOf typeA
  let baseTypeB := baseTypeOf typeB
  if baseTypeA = baseTypeB then
    match throughServices.find? (fun ts =>
      (ts.stationIdA = sA.id ∧ ts.stationIdB = sB.id) ∨
      (ts.stationIdA = sB.id ∧ ts.stationIdB = sA.id)) with
    | some rule =>
      if baseTypeA ∈ rule.types then ("直通", "直通", THROUGH_SERVICE_TIME)
      else ("乗換", "構内乗換", PLATFORM_TRANSFER_TIME)
    | none => ("乗換", "構内乗換", PLATFORM_TRANSFER_TIME)
  else ("乗換", "構内乗換", PLATFORM_TRANSFER_TIME)

/-- Pass 4 for one station pair: the co-located branch (`dist === 0` and
distinct ids) and the walking branch (`0 < dist <= 150`); each type
combination yields a mirrored pair whose directions carry their own source
station's company. -/
def pass4Pair (throughServices : List ThroughRule) (sA sB : Station)
    (typesA typesB : List String) : List Edge :=
  let dist := euclid sA sB
  if dist = 0 ∧ sA.id ≠ sB.id then
    typesA.flatMap (fun typeA => typesB.flatMap (fun typeB =>
      let info := colocatedEdgeInfo throughServices sA sB typeA typeB
      pairC ⟨sA.id, typeA⟩ ⟨sB.id, typeB⟩ info.2.2 0 info.1
        sA.company sB.company info.2.1))
  else if 0 < dist ∧ dist ≤ MAX_WALK_DISTANCE_M then
    let walkTime := dist / WALK_SPEED_MPS
    typesA.flatMap (fun typeA => typesB.flatMap (fun typeB =>
      pairC ⟨sA.id, typeA⟩ ⟨sB.id, typeB⟩ walkTime dist "乗換" "徒歩" "徒歩" "徒歩"))
  else []

/-- Pass 4 (`=== 4. 近接駅・直通・構内乗換エッジ生成 ===`) over all ordered
station pairs, skipping stations without a `stationStops` entry. -/
def pass4 (stations : List Station) (throughServices : List ThroughRule)
    (stationStops : List (String × List String)) : List Edge :=
  (orderedPairs stations).foldl (fun es pr =>
    match lookupA stationStops pr.1.id, lookupA stationStops pr.2.id with
    | some typesA, some typesB => es ++ pass4Pair throughServices pr.1 pr.2 typesA typesB
    | _, _ => es) []

/-- The value returned by `buildGraph`. -/
structure Graph where
  edges : List Edge
  stationStops : List (String × List String)
  stationOrderMap : OrderMap
deriving DecidableEq, Repr

/-- `buildGraph(stations, services, throughServices)`; `none` models the
`TypeError` raised in pass 3 when a registered station id is absent from
the station list. -/
def buildGraph (stations : List Station) (services : List Service)
    (throughServices : List ThroughRule) : Option Graph :=
  let base := buildBase stations services
  let p2 := pass2 base.1 base.2 services
  match pass3 stations p2.stationStops with
  | none => none
  | some transferEdges =>
    let proximityEdges := pass4 stations throughServices p2.stationStops
    some ⟨p2.edges ++ transferEdges ++ proximityEdges, p2.stationStops, base.1⟩

/-! ### dijkstra: constraint checks -/

/-- `edges.find(e => e.from === prevNode && e.to === node)` and the
recomputation lookup of `searchRoute`: first matching edge. -/
def findEdge (edges : List Edge) (a b : Node) : Option Edge :=
  edges.find? (fun e => e.fromN = a ∧ e.toN = b)

/-- `=== 制約: 連続乗換の禁止 ===`: a candidate walking or in-station
transfer edge is rejected when the recorded predecessor edge (first match
in the edge list) is itself a transfer or through edge. -/
def rejectConsecTransfer (edges : List Edge) (prev : List (Node × Node))
    (node : Node) (edge : Edge) : Bool :=
  decide (edge.type = "乗換" ∧ (edge.line = "徒歩" ∨ edge.line = "構内乗換")) &&
    (match lookupA prev node with
     | some prevNode =>
       match findEdge edges prevNode node with
       | some prevEdge => decide (prevEdge.type = "乗換" ∨ prevEdge.type = "直通")
       | none => false
     | none => false)

/-- `=== 制約: 直通運転の方向整合性チェック ===`: a through edge needs a
defined predecessor, resolvable stations, a rule matching the exact
from/to station pair with both companies and lines and the base service
type; a present `directionFromA` additionally requires the arrival
direction (Up when the current ordinal exceeds the predecessor ordinal,
Down otherwise, Down also when an ordinal is missing) to match.  The
`departureDirection` branch of the source contains only comments and
rejects nothing. -/
def rejectThrough (stations : List Station) (stationOrderMap : OrderMap)
    (throughServices : List ThroughRule) (prev : List (Node × Node))
    (node : Node) (edge : Edge) : Bool :=
  decide (edge.type = "直通") &&
    (match lookupA prev node with
     | none => true
     | some prevNode =>
       match stations.find? (fun s => s.id = node.stationId),
             stations.find? (fun s => s.id = edge.toN.stationId),
             stations.find? (fun s => s.id = prevNode.stationId) with
       | some fromSt, some toSt, some _prevSt =>
         let baseFromType := baseTypeOf node.serviceType
         match throughServices.find? (fun ts =>
           ts.stationIdA = node.stationId ∧ ts.stationIdB = edge.toN.stationId ∧
           ts.companyA = fromSt.company ∧ ts.lineA = fromSt.line ∧
           ts.companyB = toSt.company ∧ ts.lineB = toSt.line ∧
           baseFromType ∈ ts.types) with
         | none => true
         | some rule =>
           match rule.directionFromA with
           | some reqDir =>
             match lookupA stationOrderMap (fromSt.company, fromSt.line) with
             | some lineOrder =>
               let dir := match lookupA lineOrder node.stationId,
                                lookupA lineOrder prevNode.stationId with
                 | some a, some b => if b < a then "Up" else "Down"
                 | _, _ => "Down"
               decide (reqDir ≠ dir)
             | none => false
           | none => false
       | _, _, _ => true)

/-- `=== 制約: 構内乗換のUターン防止 ===`: an in-station transfer is
rejected when the predecessor's station shares company and line with the
current station. -/
def rejectUturn (stations : List Station) (prev : List (Node × Node))
    (node : Node) (edge : Edge) : Bool :=
  decide (edge.line = "構内乗換") &&
    (match lookupA prev node with
     | some prevNode =>
       match stations.find? (fun s => s.id = node.stationId),
             stations.find? (fun s => s.id = prevNode.stationId) with
       | some fromSt, some prevSt =>
         decide (fromSt.company = prevSt.company ∧ fromSt.line = prevSt.line)
       | _, _ => false
     | none => false)

/-- `=== 制約: 不正な折り返し防止 ===`: the source block guarding ride
edges against leaving the start/goal ordinal range contains only comments
(`ロジック省略`), so it rejects nothing. -/
def rejectOutOfRange (startStationId goalStationId : String)
    (stationOrderMap : OrderMap) (edge : Edge) : Bool :=
  false

/-- Whether the relaxation of `edge` out of `node` survives all four
constraint blocks of `dijkstra`. -/
def edgeAllowed (stations : List Station) (edges : List Edge)
    (startStationId goalStationId : String) (stationOrderMap : OrderMap)
    (throughServices : List ThroughRule) (prev : List (Node × Node))
    (node : Node) (edge : Edge) : Bool :=
  !rejectConsecTransfer edges prev node edge &&
  !rejectThrough stations stationOrderMap throughServices prev node edge &&
  !rejectUturn stations prev node edge &&
  !rejectOutOfRange startStationId goalStationId stationOrderMap edge

/-! ### dijkstra: main loop -/

/-- The mutable state of `dijkstra`: the `times`, `prev` and `distances`
dictionaries and the pending-queue array of `{node, time}` entries. -/
structure DState where
  times : List (Node × ℚ)
  prev : List (Node × Node)
  distances : List (Node × ℚ)
  pq : List (Node × ℚ)
deriving Repr

/-- One step of the inner `for (const edge of edges)` loop: skip edges not
leaving `node`, apply the constraint checks, then relax
(`newTime < (times[edge.to] ?? Infinity)`). -/
def relaxEdge (stations : List Station) (edges : List Edge)
    (startStationId goalStationId : String) (stationOrderMap : OrderMap)
    (throughServices : List ThroughRule) (node : Node) (time : ℚ)
    (s : DState) (edge : Edge) : DState :=
  if edge.fromN ≠ node then s
  else if !edgeAllowed stations edges startStationId goalStationId
      stationOrderMap throughServices s.prev node edge then s
  else
    let newTime := time + edge.time
    let newDistance := (lookupA s.distances node).getD 0 + edge.dist
    let better := match lookupA s.times edge.toN with
      | none => true
      | some t => newTime < t
    if better then
      { times := setA s.times edge.toN newTime,
        prev := setA s.prev edge.toN node,
        distances := setA s.distances edge.toN newDistance,
        pq := s.pq ++ [(edge.toN, newTime)] }
    else s

/-- The comparator `(a, b) => a.time - b.time` of the queue sort. -/
def pqLE (a b : Node × ℚ) : Prop := a.2 ≤ b.2

instance : DecidableRel pqLE := fun a b => inferInstanceAs (Decidable (a.2 ≤ b.2))

/-- The `while (pq.length > 0)` loop: stably sort the queue ascending by
time (JS `Array.prototype.sort` is stable; a stable ascending sort is
modelled by insertion sort), shift the head, skip stale entries
(`time > (times[node] ?? Infinity)`), otherwise relax all edges.  The
explicit fuel only bounds the number of iterations; exhaustion yields
`none`. -/
def dijkstraLoop (stations : List Station) (edges : List Edge)
    (startStationId goalStationId : String) (stationOrderMap : OrderMap)
    (throughServices : List ThroughRule) : Nat → DState → Option DState
  | 0, s => if s.pq.isEmpty then some s else none
  | fuel + 1, s =>
    match s.pq.insertionSort pqLE with
    | [] => some s
    | (node, time) :: rest =>
      let s1 : DState := { s with pq := rest }
      let stale := match lookupA s.times node with
        | some t => decide (t < time)
        | none => false
      if stale then
        dijkstraLoop stations edges startStationId goalStationId
          stationOrderMap throughServices fuel s1
      else
        dijkstraLoop stations edges startStationId goalStationId
          stationOrderMap throughServices fuel
          (edges.foldl (relaxEdge stations edges startStationId goalStationId
            stationOrderMap throughServices node time) s1)

/-- One step of the goal-selection loop
(`(times[goalNode] ?? Infinity) < bestTime`). -/
def selectStep (times : List (Node × ℚ)) (goalStationId : String)
    (best : Option Node × Option ℚ) (ty : String) : Option Node × Option ℚ :=
  let goalNode : Node := ⟨goalStationId, ty⟩
  match lookupA times goalNode, best.2 with
  | some t, none => (some goalNode, some t)
  | some t, some bt => if t < bt then (some goalNode, some t) else best
  | none, _ => best

/-- The `while (current)` predecessor walk with `path.unshift(current)`;
fuel bounds the chain length (the JS walk would diverge on a predecessor
cycle, which cannot occur with the positive edge weights of this graph). -/
def reconstructPath (prev : List (Node × Node)) : Nat → Node → List Node →
    Option (List Node)
  | 0, _, _ => none
  | fuel + 1, current, acc =>
    match lookupA prev current with
    | none => some (current :: acc)
    | some p => reconstructPath prev fuel p (current :: acc)

/-- The value of a terminated `dijkstra` call: the JS `null` is `noPath`,
and `found path time distance` is the returned record. -/
inductive DijkResult where
  | noPath : DijkResult
  | found : List Node → ℚ → ℚ → DijkResult
deriving DecidableEq, Repr

/-- Seed the start state: every presence node of the start station at time
and distance `0`. -/
def seedNodes (startStationId : String) : List String → DState → DState
  | [], s => s
  | ty :: rest, s =>
    seedNodes startStationId rest
      { s with times := setA s.times ⟨startStationId, ty⟩ 0,
               distances := setA s.distances ⟨startStationId, ty⟩ 0,
               pq := s.pq ++ [(⟨startStationId, ty⟩, 0)] }

/-- `dijkstra(stations, edges, startStationId, goalStationId, stationStops,
stationOrderMap, throughServices)`.  `none` is fuel exhaustion only (the JS
loop always terminates on the graphs at hand); `some noPath` is the JS
`return null`. -/
def dijkstra (stations : List Station) (edges : List Edge)
    (startStationId goalStationId : String)
    (stationStops : List (String × List String)) (stationOrderMap : OrderMap)
    (throughServices : List ThroughRule) (fuel : Nat) : Option DijkResult :=
  let startTypes := (lookupA stationStops startStationId).getD []
  let init := seedNodes startStationId startTypes ⟨[], [], [], []⟩
  match dijkstraLoop stations edges startStationId goalStationId
      stationOrderMap throughServices fuel init with
  | none => none
  | some s =>
    let goalTypes := (lookupA stationStops goalStationId).getD []
    match goalTypes.foldl (selectStep s.times goalStationId) (none, none) with
    | (none, _) => some .noPath
    | (some bestGoalNode, bestTime) =>
      match reconstructPath s.prev (s.prev.length + 1) bestGoalNode [] with
      | none => none
      | some path =>
        some (.found path (bestTime.getD 0) ((lookupA s.distances bestGoalNode).getD 0))

/-! ### searchRoute: cost profiles, recomputation, dedup, ranking -/

/-- One search pattern `{type, penalty}`; `some p` models a present truthy
penalty field. -/
structure SearchPattern where
  type : String
  transferPenalty : Option ℚ
  expressPenalty : Option ℚ
deriving DecidableEq, Repr

/-- The three cost profiles of `searchRoute`. -/
def searchPatterns : List SearchPattern :=
  [⟨"最速", none, none⟩, ⟨"乗換優先", some 180, none⟩, ⟨"各停優先", some 30, some 60⟩]

/-- The edge types counted as express for the `各停優先` penalty. -/
def expressTypes : List String :=
  ["特急", "快速", "急行", "準急", "快速急行", "特急やまかぜ", "区間急行", "通勤準急", "快速(南)"]

/-- The `modifiedEdges` map body: add the transfer penalty on
transfer-like edge types and the express penalty on express types (both
read the original `edge.type`). -/
def applyPenalty (pattern : SearchPattern) (edge : Edge) : Edge :=
  let e1 := match pattern.transferPenalty with
    | some p =>
      if edge.type ∈ ["乗換", "構内乗換", "徒歩"] then { edge with time := edge.time + p }
      else edge
    | none => edge
  match pattern.expressPenalty with
  | some p => if edge.type ∈ expressTypes then { e1 with time := e1.time + p } else e1
  | none => e1

/-- A result record `{path, time, distance, searchType}`. -/
structure RouteRes where
  path : List Node
  time : ℚ
  distance : ℚ
  searchType : String
deriving DecidableEq, Repr

/-- The `for f of fromStations; for t of toStations` candidate pairs. -/
def prodPairs (fromStations toStations : List Station) : List (Station × Station) :=
  fromStations.flatMap (fun f => toStations.map (fun t => (f, t)))

/-- The per-pattern loop keeping the minimal-time route over all candidate
station pairs (`route && (!bestRoute || route.time < bestRoute.time)`). -/
def bestOverPairs (stations : List Station) (edges : List Edge)
    (stationStops : List (String × List String)) (stationOrderMap : OrderMap)
    (throughServices : List ThroughRule) (fuel : Nat) :
    List (Station × Station) → Option (List Node × ℚ × ℚ) →
    Option (Option (List Node × ℚ × ℚ))
  | [], best => some best
  | pr :: rest, best =>
    match dijkstra stations edges pr.1.id pr.2.id stationStops stationOrderMap
        throughServices fuel with
    | none => none
    | some .noPath =>
      bestOverPairs stations edges stationStops stationOrderMap throughServices
        fuel rest best
    | some (.found p ti d) =>
      let best' := match best with
        | none => some (p, ti, d)
        | some b => if ti < b.2.1 then some (p, ti, d) else some b
      bestOverPairs stations edges stationStops stationOrderMap throughServices
        fuel rest best'

/-- The outer loop of `searchRoute` over the three patterns, collecting one
tagged result per pattern that found a route. -/
def collectPatterns (stations : List Station) (g : Graph)
    (throughServices : List ThroughRule) (fromStations toStations : List Station)
    (fuel : Nat) : List SearchPattern → List RouteRes → Option (List RouteRes)
  | [], acc => some acc
  | pattern :: rest, acc =>
    let modifiedEdges := g.edges.map (applyPenalty pattern)
    match bestOverPairs stations modifiedEdges g.stationStops g.stationOrderMap
        throughServices fuel (prodPairs fromStations toStations) none with
    | none => none
    | some none => collectPatterns stations g throughServices fromStations toStations fuel rest acc
    | some (some b) =>
      collectPatterns stations g throughServices fromStations toStations fuel rest
        (acc ++ [⟨b.1, b.2.1, b.2.2, pattern.type⟩])

/-- `ペナルティを除いた純粋な時間` recomputation: sum the times of the
first matching original edge over the consecutive node pairs of the path
(a missing edge contributes nothing). -/
def trueTime (edges : List Edge) (path : List Node) : ℚ :=
  ((consecPairs path).map (fun pr =>
    match findEdge edges pr.1 pr.2 with
    | some e => e.time
    | none => 0)).sum

/-- The matching recomputation of the pure distance. -/
def trueDistance (edges : List Edge) (path : List Node) : ℚ :=
  ((consecPairs path).map (fun pr =>
    match findEdge edges pr.1 pr.2 with
    | some e => e.dist
    | none => 0)).sum

/-- Overwrite `res.time`/`res.distance` with the recomputed true values. -/
def recompute (edges : List Edge) (r : RouteRes) : RouteRes :=
  { r with time := trueTime edges r.path, distance := trueDistance edges r.path }

/-- The `seenPaths` deduplication keyed by the path signature. -/
def dedupRoutes : List RouteRes → List (List Node) → List RouteRes
  | [], _ => []
  | r :: rest, seen =>
    if r.path ∈ seen then dedupRoutes rest seen
    else r :: dedupRoutes rest (r.path :: seen)

/-- The final sort comparator `(a, b) => a.time - b.time`. -/
def resLE (a b : RouteRes) : Prop := a.time ≤ b.time

instance : DecidableRel resLE := fun a b => inferInstanceAs (Decidable (a.time ≤ b.time))

instance : IsTotal RouteRes resLE := ⟨fun a b => le_total a.time b.time⟩

instance : IsTrans RouteRes resLE := ⟨fun _ _ _ hab hbc => le_trans hab hbc⟩

/-- The observable outcome of `searchRoute`: the unknown-station alert, the
no-route message, or the displayed list of at most three candidates. -/
inductive SearchOutcome where
  | unknownStation : SearchOutcome
  | noRoute : SearchOutcome
  | routes : List RouteRes → SearchOutcome
deriving DecidableEq, Repr

/-- `searchRoute()` on explicit inputs: build the graph, resolve the two
station names, run the three penalized searches, recompute true costs,
deduplicate, sort ascending by true time and keep the first three.
`none` models only fuel exhaustion or the pass-3 `TypeError`. -/
def searchRoute (stations : List Station) (services : List Service)
    (throughServices : List ThroughRule) (fromName toName : String)
    (fuel : Nat) : Option SearchOutcome :=
  match buildGraph stations services throughServices with
  | none => none
  | some g =>
    let fromStations := stations.filter (fun s => s.name = fromName)
    let toStations := stations.filter (fun s => s.name = toName)
    if fromStations.isEmpty ∨ toStations.isEmpty then some .unknownStation
    else
      match collectPatterns stations g throughServices fromStations toStations
          fuel searchPatterns [] with
      | none => none
      | some allResults =>
        if allResults.isEmpty then some .noRoute
        else
          let recomputed := allResults.map (recompute g.edges)
          let uniqueResults := dedupRoutes recomputed []
          some (.routes ((uniqueResults.insertionSort resLE).take 3))

/-! ### Notions used by the claims -/

/-- Transfer-like edge in the sense of claim C2: same-station transfer,
in-station transfer and walking edges all carry type `乗換`, through
edges type `直通`. -/
def transferLikeB (e : Edge) : Bool :=
  decide (e.type = "乗換" ∨ e.type = "直通")

/-- Whether a returned node sequence contains two adjacent transfer-like
edges, reading each step's edge off the edge list the way the source does
(first matching edge between consecutive nodes). -/
def hasConsecTransferLike (edges : List Edge) (path : List Node) : Bool :=
  (consecPairs (consecPairs path)).any (fun pp =>
    (match findEdge edges pp.1.1 pp.1.2 with
     | some e => transferLikeB e
     | none => false) &&
    (match findEdge edges pp.2.1 pp.2.2 with
     | some e => transferLikeB e
     | none => false))

/-- Unreachability certificate for claim C8: a node set `R` containing
every presence node of the start station, closed under the edges, and
excluding every presence node of the goal station. -/
def Separated (edges : List Edge) (stationStops : List (String × List String))
    (startStationId goalStationId : String) (R : List Node) : Prop :=
  (∀ ty ∈ (lookupA stationStops startStationId).getD [],
      (⟨startStationId, ty⟩ : Node) ∈ R) ∧
  (∀ e ∈ edges, e.fromN ∈ R → e.toN ∈ R) ∧
  (∀ ty ∈ (lookupA stationStops goalStationId).getD [],
      (⟨goalStationId, ty⟩ : Node) ∉ R)

instance (edges : List Edge) (stationStops : List (String × List String))
    (startStationId goalStationId : String) (R : List Node) :
    Decidable (Separated edges stationStops startStationId goalStationId R) := by
  unfold Separated; infer_instance

/-- The reading of claim C4 of the travel time of a ride edge: the sum of
the cached per-hop times along the intermediate physical hops (the source
instead recomputes `totalDist / TRAIN_SPEED + STOP_TIME`). -/
def hopTimeSum (segs : List (SegKey × Seg)) (fullIds : List String)
    (idxFrom idxTo : Nat) : ℚ :=
  ((hopIndices idxFrom idxTo).map (fun j =>
    match lookupA segs (hopKey fullIds idxFrom idxTo j) with
    | some segData => segData.time
    | none => 0)).sum

/-! ### Concrete networks used as witnesses and counterexamples -/

/-- Two physically coincident stations of different companies plus one
outlying neighbour each. -/
def ex1Stations : List Station :=
  [⟨"A1", "甲", 0, 0, "会社X", "X線"⟩,
   ⟨"A2", "甲東", 300, 0, "会社X", "X線"⟩,
   ⟨"B1", "乙", 0, 0, "会社Y", "Y線"⟩,
   ⟨"B2", "乙北", 0, 300, "会社Y", "Y線"⟩]

def ex1Services : List Service :=
  [⟨"普通", [⟨"会社X", "X線", ["A1", "A2"]⟩, ⟨"会社Y", "Y線", ["B1", "B2"]⟩]⟩]

def ex1Graph : Graph := (buildGraph ex1Stations ex1Services []).getD ⟨[], [], []⟩

/-- A network in which the NY10 transfer exclusion forces two consecutive
same-station transfers: `普通` reaches NY10 from S1, `普通(南)` leaves
NY10 for G1, and the only permitted connection between them is via
`快速`. -/
def ex2Stations : List Station :=
  [⟨"S1", "須田", 0, 0, "南陽", "南陽本線"⟩,
   ⟨"NY10", "亀川", 300, 0, "南陽", "南陽本線"⟩,
   ⟨"G1", "郷田", 600, 0, "南陽", "南線"⟩,
   ⟨"X1", "西山", 900, 0, "南陽", "快線"⟩]

def ex2Services : List Service :=
  [⟨"普通", [⟨"南陽", "南陽本線", ["S1", "NY10"]⟩]⟩,
   ⟨"普通(南)", [⟨"南陽", "南線", ["NY10", "G1"]⟩]⟩,
   ⟨"ダミー", [⟨"南陽", "快線", ["X1", "NY10"]⟩]⟩,
   ⟨"快速", [⟨"南陽", "快線", ["X1", "NY10"]⟩]⟩]

def ex2Graph : Graph := (buildGraph ex2Stations ex2Services []).getD ⟨[], [], []⟩

def ex2Path : List Node :=
  [⟨"S1", "普通"⟩, ⟨"NY10", "普通"⟩, ⟨"NY10", "快速"⟩, ⟨"NY10", "普通(南)"⟩,
   ⟨"G1", "普通(南)"⟩]

/-- Input whose stop lists register a station id (with two service types)
that is absent from the station list. -/
def ex3Services : List Service :=
  [⟨"普通", [⟨"会", "線", ["M1", "M2"]⟩]⟩,
   ⟨"快速", [⟨"会", "線", ["M1", "M2"]⟩]⟩]

/-- Three stations on one line; `快速` skips the middle one. -/
def ex4Stations : List Station :=
  [⟨"A1", "阿川", 0, 0, "会", "本線"⟩,
   ⟨"B1", "備後", 300, 0, "会", "本線"⟩,
   ⟨"C1", "千種", 600, 0, "会", "本線"⟩]

def ex4Services : List Service :=
  [⟨"普通", [⟨"会", "本線", ["A1", "B1", "C1"]⟩]⟩,
   ⟨"快速", [⟨"会", "本線", ["A1", "C1"]⟩]⟩]

def ex4Graph : Graph := (buildGraph ex4Stations ex4Services []).getD ⟨[], [], []⟩

def ex4Segs : List (SegKey × Seg) :=
  (lookupA (buildBase ex4Stations ex4Services).2 ("会", "本線")).getD []

/-- Two disconnected two-station lines far apart. -/
def ex5Stations : List Station :=
  [⟨"P1", "帆前", 0, 0, "会", "一線"⟩,
   ⟨"Q1", "呉橋", 300, 0, "会", "一線"⟩,
   ⟨"U1", "宇多", 10000, 0, "会", "二線"⟩,
   ⟨"V1", "丹生", 10300, 0, "会", "二線"⟩]

def ex5Services : List Service :=
  [⟨"普通", [⟨"会", "一線", ["P1", "Q1"]⟩, ⟨"会", "二線", ["U1", "V1"]⟩]⟩]

def ex5Graph : Graph := (buildGraph ex5Stations ex5Services []).getD ⟨[], [], []⟩

/-! ### Invariant notions used by the proofs -/

/-- The mirror property shared by every edge list built by `buildGraph`:
each edge has a companion in the opposite direction agreeing on time,
distance, type and line (the company of a pass-4 companion is its own
source station's company and can differ). -/
def Mirrored (l : List Edge) : Prop :=
  ∀ e ∈ l, ∃ e' ∈ l, e'.fromN = e.toN ∧ e'.toN = e.fromN ∧ e'.time = e.time ∧
    e'.dist = e.dist ∧ e'.type = e.type ∧ e'.line = e.line

/-- Pointwise facts about every edge `buildGraph` produces: nonnegative
time and distance, and the ride-edge cost shape
`time = dist / TRAIN_SPEED + STOP_TIME`. -/
def EdgeBasic (e : Edge) : Prop :=
  0 ≤ e.time ∧ 0 ≤ e.dist ∧
  (e.type ≠ "乗換" → e.type ≠ "直通" → e.time = e.dist / TRAIN_SPEED + STOP_TIME)

/-- All cached segment distances are nonnegative. -/
def CacheNonneg (sc : SegCache) : Prop :=
  ∀ le ∈ sc, ∀ kv ∈ le.2, 0 ≤ kv.2.dist

/-- The combined invariant threaded through the edge-producing passes. -/
def GoodEdges (l : List Edge) : Prop :=
  Mirrored l ∧ ∀ e ∈ l, EdgeBasic e

/-- Nodes recorded in `times` or pending in the queue stay inside any
edge-closed set containing the seeds. -/
def InsideR (R : List Node) (s : DState) : Prop :=
  (∀ kv ∈ s.times, kv.1 ∈ R) ∧ (∀ kv ∈ s.pq, kv.1 ∈ R)

/-- Invariant of the dijkstra state when every presence node of station `S`
with a type in `types` was seeded at cost zero: all recorded and pending
times are nonnegative, and the seeds keep time `0`, distance `0` and no
predecessor. -/
def ZeroInv (S : String) (types : List String) (s : DState) : Prop :=
  (∀ kv ∈ s.times, 0 ≤ kv.2) ∧ (∀ kv ∈ s.pq, 0 ≤ kv.2) ∧
  (∀ ty ∈ types, lookupA s.times (⟨S, ty⟩ : Node) = some 0 ∧
    lookupA s.distances (⟨S, ty⟩ : Node) = some 0 ∧
    lookupA s.prev (⟨S, ty⟩ : Node) = none)

/-! ### Small fixtures for concrete instantiations -/

/-- The single result produced by every profile on the ex2 network. -/
def ex2Res : RouteRes := ⟨ex2Path, 80, 600, "最速"⟩

def c9stA : Station := ⟨"TA", "た", 0, 0, "cA", "lA"⟩

def c9stB : Station := ⟨"TB", "ち", 0, 0, "cB", "lB"⟩

def c9stP : Station := ⟨"TP", "つ", 0, 0, "cA", "lA"⟩

def c9stations : List Station := [c9stA, c9stB, c9stP]

def c9rule : ThroughRule := ⟨"TA", "TB", "cA", "lA", "cB", "lB", ["普通"], none, none⟩

/-- The same rule with the station pair listed in the reverse order. -/
def c9ruleRev : ThroughRule := ⟨"TB", "TA", "cB", "lB", "cA", "lA", ["普通"], none, none⟩

def c9node : Node := ⟨"TA", "普通"⟩

def c9edge : Edge := ⟨⟨"TA", "普通"⟩, ⟨"TB", "普通"⟩, 1, 0, "直通", "cA", "直通"⟩

def c9prev : List (Node × Node) := [(⟨"TA", "普通"⟩, ⟨"TP", "普通"⟩)]

def c2prevEdge : Edge := ⟨⟨"WP", "普通"⟩, ⟨"WN", "普通"⟩, 15, 0, "乗換", "c", "l"⟩

def c2edge : Edge := ⟨⟨"WN", "普通"⟩, ⟨"WX", "他"⟩, 5, 20, "乗換", "徒歩", "徒歩"⟩

def c2node : Node := ⟨"WN", "普通"⟩

def c2prev : List (Node × Node) := [(⟨"WN", "普通"⟩, ⟨"WP", "普通"⟩)]

/-- The out-of-range ride edge of the C7 scenario: riding from B1 to C1
while searching from A1 to B1 leaves the ordinal range spanned by start
and goal. -/
def c7edge : Edge := ⟨⟨"B1", "普通"⟩, ⟨"C1", "普通"⟩, 25, 300, "普通", "会", "本線"⟩

def c7prev : List (Node × Node) := [(⟨"B1", "普通"⟩, ⟨"A1", "普通"⟩)]

/-! ## Lemmas about the dictionary model -/

theorem lookupA_mem {κ α : Type} [DecidableEq κ] {m : List (κ × α)} {k : κ} {v : α}
    (h : lookupA m k = some v) : (k, v) ∈ m := by
  unfold lookupA at h
  cases hf : m.find? (fun kv => kv.1 = k) with
  | none => rw [hf] at h; simp at h
  | some kv =>
    rw [hf] at h
    simp at h
    have hp := List.find?_some hf
    have hm := List.mem_of_find?_eq_some hf
    simp only [decide_eq_true_eq] at hp
    have : kv = (k, v) := by
      cases kv; simp_all
    rwa [this] at hm

theorem lookupA_cons {κ α : Type} [DecidableEq κ] (kv : κ × α) (rest : List (κ × α))
    (k : κ) :
    lookupA (kv :: rest) k = if kv.1 = k then some kv.2 else lookupA rest k := by
  by_cases hk : kv.1 = k
  · simp [lookupA, List.find?, hk]
  · simp [lookupA, List.find?, hk]

theorem setA_cons {κ α : Type} [DecidableEq κ] (kv : κ × α) (rest : List (κ × α))
    (k : κ) (v : α) :
    setA (kv :: rest) k v = if kv.1 = k then (k, v) :: rest else kv :: setA rest k v :=
  rfl

theorem mem_setA {κ α : Type} [DecidableEq κ] {k : κ} {v : α} :
    ∀ {m : List (κ × α)}, ∀ kv ∈ setA m k v, kv = (k, v) ∨ kv ∈ m
  | [], kv, h => by
    simp only [setA, List.mem_singleton] at h; exact Or.inl h
  | kv₀ :: rest, kv, h => by
    rw [setA_cons] at h
    by_cases hk : kv₀.1 = k
    · rw [if_pos hk] at h
      rcases List.mem_cons.mp h with h | h
      · exact Or.inl h
      · exact Or.inr (List.mem_cons_of_mem _ h)
    · rw [if_neg hk] at h
      rcases List.mem_cons.mp h with h | h
      · exact Or.inr (h ▸ List.mem_cons_self _ _)
      · rcases mem_setA kv h with h | h
        · exact Or.inl h
        · exact Or.inr (List.mem_cons_of_mem _ h)

theorem setA_forall {κ α : Type} [DecidableEq κ] {P : κ × α → Prop}
    {m : List (κ × α)} {k : κ} {v : α}
    (hm : ∀ kv ∈ m, P kv) (hv : P (k, v)) : ∀ kv ∈ setA m k v, P kv := by
  intro kv hkv
  rcases mem_setA kv hkv with h | h
  · exact h ▸ hv
  · exact hm kv h

theorem lookupA_setA_self {κ α : Type} [DecidableEq κ] (m : List (κ × α)) (k : κ) (v : α) :
    lookupA (setA m k v) k = some v := by
  induction m with
  | nil => simp [setA, lookupA, List.find?]
  | cons kv rest ih =>
    rw [setA_cons]
    by_cases hk : kv.1 = k
    · rw [if_pos hk, lookupA_cons]
      simp
    · rw [if_neg hk, lookupA_cons, if_neg hk]
      exact ih

theorem lookupA_setA_ne {κ α : Type} [DecidableEq κ] (m : List (κ × α)) {k k' : κ} (v : α)
    (h : k' ≠ k) : lookupA (setA m k v) k' = lookupA m k' := by
  induction m with
  | nil => simp [setA, lookupA, List.find?, Ne.symm h]
  | cons kv rest ih =>
    rw [setA_cons]
    by_cases hk : kv.1 = k
    · rw [if_pos hk, lookupA_cons, lookupA_cons, hk]
      simp [Ne.symm h]
    · rw [if_neg hk, lookupA_cons, lookupA_cons]
      by_cases hk' : kv.1 = k'
      · rw [if_pos hk', if_pos hk']
      · rw [if_neg hk', if_neg hk']
        exact ih

theorem lookupA_none_of_forall {κ α : Type} [DecidableEq κ] {m : List (κ × α)}
    {P : κ → Prop} {k : κ} (hm : ∀ kv ∈ m, P kv.1) (hk : ¬ P k) :
    lookupA m k = none := by
  unfold lookupA
  cases hf : m.find? (fun kv => kv.1 = k) with
  | none => rfl
  | some kv =>
    have hp := List.find?_some hf
    have hmem := List.mem_of_find?_eq_some hf
    simp only [decide_eq_true_eq] at hp
    exact absurd (hp ▸ hm kv hmem) hk

/-! ## Generic fold lemmas -/

theorem foldl_preserve {α β : Type} {P : β → Prop} {f : β → α → β} :
    ∀ {l : List α}, (∀ b a, a ∈ l → P b → P (f b a)) → ∀ {b}, P b → P (l.foldl f b)
  | [], _, _, hb => hb
  | a :: rest, hstep, b, hb =>
    foldl_preserve (fun b' a' ha' => hstep b' a' (List.mem_cons_of_mem _ ha'))
      (hstep b a (List.mem_cons_self _ _) hb)

theorem foldl_bind_some {α β : Type} {P : β → Prop} {g : β → α → Option β} :
    ∀ {l : List α}, (∀ b a b', a ∈ l → P b → g b a = some b' → P b') →
    ∀ {o : Option β} {b' : β}, (∀ b, o = some b → P b) →
    l.foldl (fun oacc a => oacc.bind (fun b => g b a)) o = some b' → P b'
  | [], _, o, b', ho, hfold => ho b' hfold
  | a :: rest, hg, o, b', ho, hfold => by
    refine foldl_bind_some (l := rest)
      (fun b a' b'' ha' => hg b a' b'' (List.mem_cons_of_mem _ ha')) ?_ hfold
    intro b hb
    cases o with
    | none => simp at hb
    | some b0 =>
      exact hg b0 a b (List.mem_cons_self _ _) (ho b0 rfl) hb

/-! ## Nonnegativity of the numeric model -/

theorem ratSqrt_nonneg (q : ℚ) : 0 ≤ ratSqrt q :=
  Rat.mkRat_nonneg (Int.natCast_nonneg _) _

theorem euclid_nonneg (sA sB : Station) : 0 ≤ euclid sA sB :=
  ratSqrt_nonneg _

/-! ## The mirror and pointwise invariants of buildGraph -/

theorem mirrored_nil : Mirrored [] := by
  intro e he; simp at he

theorem mirrored_append {l1 l2 : List Edge} (h1 : Mirrored l1) (h2 : Mirrored l2) :
    Mirrored (l1 ++ l2) := by
  intro e he
  rcases List.mem_append.mp he with h | h
  · obtain ⟨e', he', hprop⟩ := h1 e h
    exact ⟨e', List.mem_append.mpr (Or.inl he'), hprop⟩
  · obtain ⟨e', he', hprop⟩ := h2 e h
    exact ⟨e', List.mem_append.mpr (Or.inr he'), hprop⟩

theorem mirrored_pairC (n1 n2 : Node) (t d : ℚ) (ty c1 c2 line : String) :
    Mirrored (pairC n1 n2 t d ty c1 c2 line) := by
  intro e he
  unfold pairC at he ⊢
  rcases List.mem_cons.mp he with h | h
  · refine ⟨⟨n2, n1, t, d, ty, c2, line⟩, by simp, ?_⟩
    subst h; simp
  · simp only [List.mem_cons, List.not_mem_nil, or_false] at h
    refine ⟨⟨n1, n2, t, d, ty, c1, line⟩, by simp, ?_⟩
    subst h; simp

theorem mirrored_flatMap {α : Type} {f : α → List Edge} :
    ∀ {l : List α}, (∀ a ∈ l, Mirrored (f a)) → Mirrored (l.flatMap f)
  | [], _ => by simpa [List.flatMap] using mirrored_nil
  | a :: rest, h => by
    have : (a :: rest).flatMap f = f a ++ rest.flatMap f := by simp
    rw [this]
    exact mirrored_append (h a (List.mem_cons_self _ _))
      (mirrored_flatMap (fun a' ha' => h a' (List.mem_cons_of_mem _ ha')))

theorem edgeBasic_pairC {n1 n2 : Node} {t d : ℚ} {ty c1 c2 line : String}
    (ht : 0 ≤ t) (hd : 0 ≤ d)
    (hshape : ty ≠ "乗換" → ty ≠ "直通" → t = d / TRAIN_SPEED + STOP_TIME) :
    ∀ e ∈ pairC n1 n2 t d ty c1 c2 line, EdgeBasic e := by
  intro e he
  unfold pairC at he
  unfold EdgeBasic
  rcases List.mem_cons.mp he with h | h
  · subst h; exact ⟨ht, hd, hshape⟩
  · simp only [List.mem_cons, List.not_mem_nil, or_false] at h
    subst h; exact ⟨ht, hd, hshape⟩

/-! ## Nonnegativity of the segment cache -/

theorem baseStopsPass_cache_nonneg (stations : List Station) (stops : List String) :
    ∀ (i : Nat) (om : List (String × Nat))
      (sc : List (SegKey × Seg)), (∀ kv ∈ sc, 0 ≤ kv.2.dist) →
      ∀ kv ∈ (baseStopsPass stations stops i om sc).2, 0 ≤ kv.2.dist := by
  induction stops with
  | nil =>
    intro i om sc hsc
    simpa only [baseStopsPass] using hsc
  | cons stopId rest ih =>
    intro i om sc hsc
    rw [baseStopsPass.eq_def]
    dsimp only
    apply ih
    dsimp only
    cases rest with
    | nil => exact hsc
    | cons toId rest' =>
      by_cases hkey : (lookupA sc (stopId, toId)).isSome
      · simp only [if_pos hkey]; exact hsc
      · simp only [if_neg hkey]
        cases hA : stations.find? (fun s => s.id = stopId) with
        | none => exact hsc
        | some sA =>
          cases hB : stations.find? (fun s => s.id = toId) with
          | none => exact hsc
          | some sB =>
            dsimp only
            exact setA_forall (setA_forall hsc (euclid_nonneg sA sB)) (euclid_nonneg sA sB)

theorem baseRoutePass_cache_nonneg (stations : List Station)
    (acc : OrderMap × SegCache) (route : RouteDef) (hacc : CacheNonneg acc.2) :
    CacheNonneg (baseRoutePass stations acc route).2 := by
  unfold baseRoutePass
  dsimp only
  intro le hle
  have hsc0 : CacheNonneg (if (lookupA acc.2 (route.company, route.line)).isSome
      then acc.2 else setA acc.2 (route.company, route.line) []) := by
    by_cases hk : (lookupA acc.2 (route.company, route.line)).isSome
    · simpa [if_pos hk] using hacc
    · rw [if_neg hk]
      intro le' hle' kv hkv
      rcases mem_setA le' hle' with h | h
      · subst h; simp at hkv
      · exact hacc le' h kv hkv
  rcases mem_setA le hle with h | h
  · subst h
    dsimp only
    apply baseStopsPass_cache_nonneg
    intro kv hkv
    cases hl : lookupA (if (lookupA acc.2 (route.company, route.line)).isSome
        then acc.2 else setA acc.2 (route.company, route.line) [])
        (route.company, route.line) with
    | none => rw [hl] at hkv; simp at hkv
    | some inner =>
      rw [hl] at hkv
      exact hsc0 _ (lookupA_mem hl) kv hkv
  · exact hsc0 le h

theorem buildBase_cache_nonneg (stations : List Station) (services : List Service) :
    CacheNonneg (buildBase stations services).2 := by
  unfold buildBase
  apply foldl_preserve (P := fun acc : OrderMap × SegCache => CacheNonneg acc.2)
  · intro acc service _ hacc
    by_cases hbase : service.type ∈ baseRouteTypes
    · rw [if_pos hbase]
      apply foldl_preserve (P := fun acc : OrderMap × SegCache => CacheNonneg acc.2)
      · intro acc' route _ hacc'
        exact baseRoutePass_cache_nonneg stations acc' route hacc'
      · exact hacc
    · rw [if_neg hbase]; exact hacc
  · intro le hle; simp at hle

theorem hopDist_nonneg {segs : List (SegKey × Seg)} (hsegs : ∀ kv ∈ segs, 0 ≤ kv.2.dist)
    (fullIds : List String) (idxFrom idxTo : Nat) :
    0 ≤ hopDist segs fullIds idxFrom idxTo := by
  unfold hopDist
  apply foldl_preserve (P := fun total : ℚ => 0 ≤ total)
  · intro total j _ htotal
    cases hl : lookupA segs (hopKey fullIds idxFrom idxTo j) with
    | none => exact htotal
    | some segData =>
      have := hsegs _ (lookupA_mem hl)
      dsimp only
      exact add_nonneg htotal this
  · exact le_refl 0

/-! ## Pass-by-pass mirror and pointwise invariants -/

theorem goodEdges_nil : GoodEdges [] :=
  ⟨mirrored_nil, by intro e he; simp at he⟩

theorem goodEdges_append {l1 l2 : List Edge} (h1 : GoodEdges l1) (h2 : GoodEdges l2) :
    GoodEdges (l1 ++ l2) := by
  refine ⟨mirrored_append h1.1 h2.1, ?_⟩
  intro e he
  rcases List.mem_append.mp he with h | h
  · exact h1.2 e h
  · exact h2.2 e h

theorem goodEdges_pairC {n1 n2 : Node} {t d : ℚ} {ty c1 c2 line : String}
    (ht : 0 ≤ t) (hd : 0 ≤ d)
    (hshape : ty ≠ "乗換" → ty ≠ "直通" → t = d / TRAIN_SPEED + STOP_TIME) :
    GoodEdges (pairC n1 n2 t d ty c1 c2 line) :=
  ⟨mirrored_pairC n1 n2 t d ty c1 c2 line, edgeBasic_pairC ht hd hshape⟩

theorem pass2Pair_good {segs : List (SegKey × Seg)}
    (hsegs : ∀ kv ∈ segs, 0 ≤ kv.2.dist) (fullIds : List String)
    (serviceType company line : String) (acc : Pass2Acc) (pr : String × String)
    (hacc : GoodEdges acc.edges) :
    GoodEdges (pass2Pair segs fullIds serviceType company line acc pr).edges := by
  unfold pass2Pair
  by_cases hexc : serviceType = "普通" ∧ pr.1 = "IK01" ∧ pr.2 = "IK02"
  · simpa [if_pos hexc] using hacc
  · rw [if_neg hexc]
    cases hi1 : fullIds.findIdx? (fun x => x = pr.1) with
    | none => exact hacc
    | some idxFrom =>
      cases hi2 : fullIds.findIdx? (fun x => x = pr.2) with
      | none => exact hacc
      | some idxTo =>
        dsimp only
        apply goodEdges_append hacc
        have hD : 0 ≤ hopDist segs fullIds idxFrom idxTo :=
          hopDist_nonneg hsegs fullIds idxFrom idxTo
        refine goodEdges_pairC ?_ hD (fun _ _ => rfl)
        have h15 : (0:ℚ) ≤ hopDist segs fullIds idxFrom idxTo / TRAIN_SPEED :=
          div_nonneg hD (by norm_num [TRAIN_SPEED])
        have : (0:ℚ) ≤ STOP_TIME := by norm_num [STOP_TIME]
        exact add_nonneg h15 this

theorem pass2Route_good {om : OrderMap} {sc : SegCache} (hsc : CacheNonneg sc)
    (serviceType : String) (acc : Pass2Acc) (route : RouteDef)
    (hacc : GoodEdges acc.edges) :
    GoodEdges (pass2Route om sc serviceType acc route).edges := by
  unfold pass2Route
  dsimp only
  cases hlo : lookupA om (route.company, route.line) with
  | none => exact hacc
  | some lineOrderMap =>
    dsimp only
    apply foldl_preserve (P := fun acc : Pass2Acc => GoodEdges acc.edges)
    · intro acc'' pr _ hacc''
      apply pass2Pair_good _ _ _ _ _ _ _ hacc''
      intro kv hkv
      cases hl : lookupA sc (route.company, route.line) with
      | none => rw [hl] at hkv; simp at hkv
      | some segs =>
        rw [hl] at hkv
        exact hsc _ (lookupA_mem hl) kv hkv
    · exact hacc

theorem pass2_good (om : OrderMap) (sc : SegCache) (services : List Service)
    (hsc : CacheNonneg sc) : GoodEdges (pass2 om sc services).edges := by
  unfold pass2
  apply foldl_preserve (P := fun acc : Pass2Acc => GoodEdges acc.edges)
  · intro acc service _ hacc
    by_cases hdum : service.type = "ダミー"
    · rw [if_pos hdum]; exact hacc
    · rw [if_neg hdum]
      apply foldl_preserve (P := fun acc : Pass2Acc => GoodEdges acc.edges)
      · intro acc' route _ hacc'
        exact pass2Route_good hsc service.type acc' route hacc'
      · exact hacc
  · exact goodEdges_nil

theorem pass3Station_good (stations : List Station) (stationId : String)
    (types : List String) (acc : List Edge) (es : List Edge)
    (hacc : GoodEdges acc) (h : pass3Station stations stationId types acc = some es) :
    GoodEdges es := by
  unfold pass3Station at h
  refine foldl_bind_some (P := GoodEdges) ?_ ?_ h
  · intro b pr b' _ hb hstep
    by_cases hny : stationId = "NY10" ∧ ny10Excluded pr.1 pr.2
    · rw [if_pos hny] at hstep
      cases hstep; exact hb
    · rw [if_neg hny] at hstep
      cases hfind : stations.find? (fun s => s.id = stationId) with
      | none => rw [hfind] at hstep; cases hstep
      | some station =>
        rw [hfind] at hstep
        cases hstep
        apply goodEdges_append hb
        refine goodEdges_pairC ?_ (le_refl 0) (fun hne _ => absurd rfl hne)
        norm_num [TRANSFER_TIME]
  · intro b hb; cases hb; exact hacc

theorem pass3_good (stations : List Station)
    (stationStops : List (String × List String)) (es : List Edge)
    (h : pass3 stations stationStops = some es) : GoodEdges es := by
  unfold pass3 at h
  refine foldl_bind_some (P := GoodEdges) ?_ ?_ h
  · intro b entry b' _ hb hstep
    by_cases hlen : entry.2.length ≤ 1
    · rw [if_pos hlen] at hstep; cases hstep; exact hb
    · rw [if_neg hlen] at hstep
      exact pass3Station_good stations entry.1 entry.2 b b' hb hstep
  · intro b hb; cases hb; exact goodEdges_nil

theorem colocatedEdgeInfo_cases (throughServices : List ThroughRule) (sA sB : Station)
    (typeA typeB : String) :
    colocatedEdgeInfo throughServices sA sB typeA typeB =
      ("直通", "直通", THROUGH_SERVICE_TIME) ∨
    colocatedEdgeInfo throughServices sA sB typeA typeB =
      ("乗換", "構内乗換", PLATFORM_TRANSFER_TIME) := by
  unfold colocatedEdgeInfo
  by_cases hbase : baseTypeOf typeA = baseTypeOf typeB
  · rw [if_pos hbase]
    cases throughServices.find? (fun ts =>
        (ts.stationIdA = sA.id ∧ ts.stationIdB = sB.id) ∨
        (ts.stationIdA = sB.id ∧ ts.stationIdB = sA.id)) with
    | none => exact Or.inr rfl
    | some rule =>
      dsimp only
      by_cases hty : baseTypeOf typeA ∈ rule.types
      · rw [if_pos hty]; exact Or.inl rfl
      · rw [if_neg hty]; exact Or.inr rfl
  · rw [if_neg hbase]; exact Or.inr rfl

theorem goodEdges_flatMap {α : Type} {f : α → List Edge} :
    ∀ {l : List α}, (∀ a ∈ l, GoodEdges (f a)) → GoodEdges (l.flatMap f)
  | [], _ => by simpa using goodEdges_nil
  | a :: rest, h => by
    have heq : (a :: rest).flatMap f = f a ++ rest.flatMap f := by simp
    rw [heq]
    exact goodEdges_append (h a (List.mem_cons_self _ _))
      (goodEdges_flatMap (fun a' ha' => h a' (List.mem_cons_of_mem _ ha')))

theorem pass4Pair_good (throughServices : List ThroughRule) (sA sB : Station)
    (typesA typesB : List String) :
    GoodEdges (pass4Pair throughServices sA sB typesA typesB) := by
  unfold pass4Pair
  by_cases hco : euclid sA sB = 0 ∧ sA.id ≠ sB.id
  · rw [if_pos hco]
    apply goodEdges_flatMap
    intro typeA _
    apply goodEdges_flatMap
    intro typeB _
    dsimp only
    rcases colocatedEdgeInfo_cases throughServices sA sB typeA typeB with h | h
    · rw [h]
      refine goodEdges_pairC ?_ (le_refl 0) (fun _ hne => absurd rfl hne)
      norm_num [THROUGH_SERVICE_TIME]
    · rw [h]
      refine goodEdges_pairC ?_ (le_refl 0) (fun hne _ => absurd rfl hne)
      norm_num [PLATFORM_TRANSFER_TIME]
  · rw [if_neg hco]
    by_cases hwalk : 0 < euclid sA sB ∧ euclid sA sB ≤ MAX_WALK_DISTANCE_M
    · rw [if_pos hwalk]
      apply goodEdges_flatMap
      intro typeA _
      apply goodEdges_flatMap
      intro typeB _
      refine goodEdges_pairC ?_ (euclid_nonneg sA sB) (fun hne _ => absurd rfl hne)
      exact div_nonneg (euclid_nonneg sA sB) (by norm_num [WALK_SPEED_MPS])
    · rw [if_neg hwalk]; exact goodEdges_nil

theorem pass4_good (stations : List Station) (throughServices : List ThroughRule)
    (stationStops : List (String × List String)) :
    GoodEdges (pass4 stations throughServices stationStops) := by
  unfold pass4
  apply foldl_preserve (P := GoodEdges)
  · intro es pr _ hes
    cases lookupA stationStops pr.1.id with
    | none => exact hes
    | some typesA =>
      cases lookupA stationStops pr.2.id with
      | none => exact hes
      | some typesB =>
        exact goodEdges_append hes (pass4Pair_good throughServices pr.1 pr.2 typesA typesB)
  · exact goodEdges_nil

/-- Every graph `buildGraph` returns satisfies the mirror invariant and the
pointwise edge facts. -/
theorem buildGraph_good {stations : List Station} {services : List Service}
    {throughServices : List ThroughRule} {g : Graph}
    (h : buildGraph stations services throughServices = some g) :
    GoodEdges g.edges := by
  unfold buildGraph at h
  dsimp only at h
  cases hp3 : pass3 stations (pass2 (buildBase stations services).1
      (buildBase stations services).2 services).stationStops with
  | none => rw [hp3] at h; cases h
  | some transferEdges =>
    rw [hp3] at h
    cases h
    dsimp only
    apply goodEdges_append
    apply goodEdges_append
    · exact pass2_good _ _ services (buildBase_cache_nonneg stations services)
    · exact pass3_good _ _ _ hp3
    · exact pass4_good _ _ _

/-! ## The ride-edge cost accumulation (claim C4) -/

theorem foldl_add_eq_sum {α : Type} (f : α → ℚ) :
    ∀ (l : List α) (init : ℚ), l.foldl (fun t a => t + f a) init = init + (l.map f).sum
  | [], init => by simp
  | a :: rest, init => by
    rw [List.foldl_cons, foldl_add_eq_sum f rest (init + f a)]
    simp [add_assoc]

theorem hopDist_eq_sum (segs : List (SegKey × Seg)) (fullIds : List String)
    (idxFrom idxTo : Nat) :
    hopDist segs fullIds idxFrom idxTo =
      ((hopIndices idxFrom idxTo).map (fun j =>
        match lookupA segs (hopKey fullIds idxFrom idxTo j) with
        | some segData => segData.dist
        | none => 0)).sum := by
  unfold hopDist
  have hbody : (fun (total : ℚ) (j : Nat) =>
      match lookupA segs (hopKey fullIds idxFrom idxTo j) with
      | some segData => total + segData.dist
      | none => total) =
      fun (total : ℚ) (j : Nat) => total +
        (match lookupA segs (hopKey fullIds idxFrom idxTo j) with
         | some segData => segData.dist
         | none => 0) := by
    funext total j
    cases lookupA segs (hopKey fullIds idxFrom idxTo j) with
    | some segData => rfl
    | none => simp
  rw [hbody, foldl_add_eq_sum, zero_add]

/-! ## The dijkstra loop invariant machinery -/

theorem dijkstraLoop_inv {P : DState → Prop}
    {stations : List Station} {edges : List Edge} {startId goalId : String}
    {orderMap : OrderMap} {rules : List ThroughRule}
    (hstep : ∀ s node time rest,
      s.pq.insertionSort pqLE = (node, time) :: rest → P s →
      P { s with pq := rest } ∧
      P (edges.foldl (relaxEdge stations edges startId goalId orderMap rules node time)
          { s with pq := rest })) :
    ∀ (fuel : Nat) (s s' : DState), P s →
      dijkstraLoop stations edges startId goalId orderMap rules fuel s = some s' →
      P s' := by
  intro fuel
  induction fuel with
  | zero =>
    intro s s' hP h
    unfold dijkstraLoop at h
    by_cases hpq : s.pq.isEmpty
    · rw [if_pos hpq] at h; cases h; exact hP
    · rw [if_neg hpq] at h; cases h
  | succ n ih =>
    intro s s' hP h
    rw [dijkstraLoop] at h
    cases hsort : s.pq.insertionSort pqLE with
    | nil => rw [hsort] at h; cases h; exact hP
    | cons nt rest =>
      obtain ⟨node, time⟩ := nt
      rw [hsort] at h
      dsimp only at h
      have hparts := hstep s node time rest hsort hP
      cases hstale : (match lookupA s.times node with
          | some t => decide (t < time)
          | none => false) with
      | true =>
        rw [hstale] at h
        simp only [if_true] at h
        exact ih _ _ hparts.1 h
      | false =>
        rw [hstale] at h
        simp only [Bool.false_eq_true, if_false] at h
        exact ih _ _ hparts.2 h

theorem relaxEdge_insideR {stations : List Station} {edges : List Edge}
    {startId goalId : String} {orderMap : OrderMap} {rules : List ThroughRule}
    {R : List Node} (hclosed : ∀ e ∈ edges, e.fromN ∈ R → e.toN ∈ R)
    {node : Node} (hnode : node ∈ R) (time : ℚ) {s : DState} {edge : Edge}
    (hedge : edge ∈ edges) (hs : InsideR R s) :
    InsideR R (relaxEdge stations edges startId goalId orderMap rules node time s edge) := by
  unfold relaxEdge
  by_cases h1 : edge.fromN ≠ node
  · rw [if_pos h1]; exact hs
  · rw [if_neg h1]
    push_neg at h1
    by_cases h2 : (!edgeAllowed stations edges startId goalId orderMap rules
        s.prev node edge) = true
    · rw [if_pos h2]; exact hs
    · rw [if_neg h2]
      dsimp only
      split
      · constructor
        · intro kv hkv
          rcases mem_setA kv hkv with h | h
          · subst h; exact hclosed edge hedge (h1 ▸ hnode)
          · exact hs.1 kv h
        · intro kv hkv
          rcases List.mem_append.mp hkv with h | h
          · exact hs.2 kv h
          · simp only [List.mem_singleton] at h
            subst h; exact hclosed edge hedge (h1 ▸ hnode)
      · exact hs

theorem seedNodes_insideR {R : List Node} {startId : String} :
    ∀ (tys : List String) (s : DState),
      (∀ ty ∈ tys, (⟨startId, ty⟩ : Node) ∈ R) → InsideR R s →
      InsideR R (seedNodes startId tys s)
  | [], s, _, hs => hs
  | ty :: rest, s, htys, hs => by
    rw [seedNodes]
    apply seedNodes_insideR rest _ (fun ty' hty' => htys ty' (List.mem_cons_of_mem _ hty'))
    have hmem : (⟨startId, ty⟩ : Node) ∈ R := htys ty (List.mem_cons_self _ _)
    constructor
    · intro kv hkv
      rcases mem_setA kv hkv with h | h
      · subst h; exact hmem
      · exact hs.1 kv h
    · intro kv hkv
      rcases List.mem_append.mp hkv with h | h
      · exact hs.2 kv h
      · simp only [List.mem_singleton] at h
        subst h; exact hmem

theorem selectFold_none {times : List (Node × ℚ)} {goalId : String} :
    ∀ (tys : List String) (b : Option ℚ),
      (∀ ty ∈ tys, lookupA times (⟨goalId, ty⟩ : Node) = none) →
      tys.foldl (selectStep times goalId) (none, b) = (none, b)
  | [], _, _ => rfl
  | ty :: rest, b, h => by
    rw [List.foldl_cons]
    have hsel : selectStep times goalId (none, b) ty = (none, b) := by
      unfold selectStep
      dsimp only
      rw [h ty (List.mem_cons_self _ _)]
    rw [hsel]
    exact selectFold_none rest b (fun ty' hty' => h ty' (List.mem_cons_of_mem _ hty'))

/-- Claim C8, engine part: whenever a separating closed node set exists,
a terminating `dijkstra` call reports the explicit no-path value. -/
theorem dijkstra_noPath_of_separated {stations : List Station} {edges : List Edge}
    {startId goalId : String} {stationStops : List (String × List String)}
    {orderMap : OrderMap} {rules : List ThroughRule} {fuel : Nat} {res : DijkResult}
    {R : List Node} (hsep : Separated edges stationStops startId goalId R)
    (h : dijkstra stations edges startId goalId stationStops orderMap rules fuel =
      some res) : res = .noPath := by
  unfold dijkstra at h
  dsimp only at h
  have hclosed := hsep.2.1
  have hinit : InsideR R (seedNodes startId ((lookupA stationStops startId).getD [])
      ⟨[], [], [], []⟩) := by
    apply seedNodes_insideR _ _ hsep.1
    exact ⟨by intro kv hkv; simp at hkv, by intro kv hkv; simp at hkv⟩
  cases hloop : dijkstraLoop stations edges startId goalId orderMap rules fuel
      (seedNodes startId ((lookupA stationStops startId).getD []) ⟨[], [], [], []⟩) with
  | none => rw [hloop] at h; cases h
  | some sf =>
    rw [hloop] at h
    have hsf : InsideR R sf := by
      refine dijkstraLoop_inv ?_ fuel _ sf hinit hloop
      intro s node time rest hsort hP
      have hpop : (node, time) ∈ s.pq := by
        have : (node, time) ∈ s.pq.insertionSort pqLE := by
          rw [hsort]; exact List.mem_cons_self _ _
        exact ((s.pq.perm_insertionSort pqLE).mem_iff).mp this
      have hrest : InsideR R { s with pq := rest } := by
        refine ⟨hP.1, ?_⟩
        intro kv hkv
        have : kv ∈ s.pq.insertionSort pqLE := by
          rw [hsort]; exact List.mem_cons_of_mem _ hkv
        exact hP.2 kv (((s.pq.perm_insertionSort pqLE).mem_iff).mp this)
      refine ⟨hrest, ?_⟩
      apply foldl_preserve (P := InsideR R)
      · intro s'' edge hedge hs''
        exact relaxEdge_insideR hclosed (hP.2 _ hpop) time hedge hs''
      · exact hrest
    have hnone : ∀ ty ∈ (lookupA stationStops goalId).getD [],
        lookupA sf.times (⟨goalId, ty⟩ : Node) = none := by
      intro ty hty
      exact lookupA_none_of_forall hsf.1 (hsep.2.2 ty hty)
    dsimp only at h
    rw [selectFold_none _ _ hnone] at h
    cases h
    rfl

/-! ## The zero-cost invariant for a start-equals-goal search (claim C10) -/

theorem lookupA_setA_isSome {κ α : Type} [DecidableEq κ] {m : List (κ × α)}
    {k k' : κ} (v : α) (h : (lookupA m k').isSome) :
    (lookupA (setA m k v) k').isSome := by
  by_cases hk : k' = k
  · subst hk; rw [lookupA_setA_self]; rfl
  · rw [lookupA_setA_ne _ _ hk]; exact h

theorem relaxEdge_zeroInv {stations : List Station} {edges : List Edge}
    {startId goalId S : String} {orderMap : OrderMap} {rules : List ThroughRule}
    {types : List String} (hedges : ∀ e ∈ edges, 0 ≤ e.time)
    {node : Node} {time : ℚ} (htime : 0 ≤ time) {s : DState} {edge : Edge}
    (hedge : edge ∈ edges) (hs : ZeroInv S types s) :
    ZeroInv S types (relaxEdge stations edges startId goalId orderMap rules node time s edge) := by
  unfold relaxEdge
  by_cases h1 : edge.fromN ≠ node
  · rw [if_pos h1]; exact hs
  · rw [if_neg h1]
    by_cases h2 : (!edgeAllowed stations edges startId goalId orderMap rules
        s.prev node edge) = true
    · rw [if_pos h2]; exact hs
    · rw [if_neg h2]
      dsimp only
      split
      next hb =>
        have hnew : 0 ≤ time + edge.time := add_nonneg htime (hedges edge hedge)
        refine ⟨?_, ?_, ?_⟩
        · intro kv hkv
          rcases mem_setA kv hkv with h | h
          · subst h; exact hnew
          · exact hs.1 kv h
        · intro kv hkv
          rcases List.mem_append.mp hkv with h | h
          · exact hs.2.1 kv h
          · simp only [List.mem_singleton] at h
            subst h; exact hnew
        · intro ty hty
          obtain ⟨ht0, hd0, hp0⟩ := hs.2.2 ty hty
          by_cases hkey : (⟨S, ty⟩ : Node) = edge.toN
          · exfalso
            rw [← hkey] at hb
            rw [ht0] at hb
            simp only [decide_eq_true_eq] at hb
            exact absurd hb (not_lt.mpr hnew)
          · exact ⟨by rw [lookupA_setA_ne _ _ hkey]; exact ht0,
              by rw [lookupA_setA_ne _ _ hkey]; exact hd0,
              by rw [lookupA_setA_ne _ _ hkey]; exact hp0⟩
      next => exact hs

theorem seedNodes_prev (S : String) :
    ∀ (tys : List String) (s : DState), (seedNodes S tys s).prev = s.prev
  | [], _ => rfl
  | ty :: rest, s => by
    rw [seedNodes]
    exact seedNodes_prev S rest _

theorem seedNodes_times_vals (S : String) :
    ∀ (tys : List String) (s : DState), (∀ kv ∈ s.times, kv.2 = (0:ℚ)) →
      ∀ kv ∈ (seedNodes S tys s).times, kv.2 = 0
  | [], _, hs => hs
  | ty :: rest, s, hs => by
    rw [seedNodes]
    apply seedNodes_times_vals S rest
    exact setA_forall hs rfl

theorem seedNodes_dist_vals (S : String) :
    ∀ (tys : List String) (s : DState), (∀ kv ∈ s.distances, kv.2 = (0:ℚ)) →
      ∀ kv ∈ (seedNodes S tys s).distances, kv.2 = 0
  | [], _, hs => hs
  | ty :: rest, s, hs => by
    rw [seedNodes]
    apply seedNodes_dist_vals S rest
    exact setA_forall hs rfl

theorem seedNodes_pq_vals (S : String) :
    ∀ (tys : List String) (s : DState), (∀ kv ∈ s.pq, kv.2 = (0:ℚ)) →
      ∀ kv ∈ (seedNodes S tys s).pq, kv.2 = 0
  | [], _, hs => hs
  | ty :: rest, s, hs => by
    rw [seedNodes]
    apply seedNodes_pq_vals S rest
    intro kv hkv
    rcases List.mem_append.mp hkv with h | h
    · exact hs kv h
    · simp only [List.mem_singleton] at h
      subst h; rfl

theorem seedNodes_times_isSome (S : String) :
    ∀ (tys : List String) (s : DState) (ty : String),
      ty ∈ tys ∨ (lookupA s.times (⟨S, ty⟩ : Node)).isSome →
      (lookupA (seedNodes S tys s).times (⟨S, ty⟩ : Node)).isSome
  | [], s, ty, h => by
    rcases h with h | h
    · simp at h
    · exact h
  | ty0 :: rest, s, ty, h => by
    rw [seedNodes]
    apply seedNodes_times_isSome S rest
    rcases h with h | h
    · rcases List.mem_cons.mp h with h | h
      · subst h
        refine Or.inr ?_
        rw [lookupA_setA_self]; rfl
      · exact Or.inl h
    · exact Or.inr (lookupA_setA_isSome _ h)

theorem seedNodes_dist_isSome (S : String) :
    ∀ (tys : List String) (s : DState) (ty : String),
      ty ∈ tys ∨ (lookupA s.distances (⟨S, ty⟩ : Node)).isSome →
      (lookupA (seedNodes S tys s).distances (⟨S, ty⟩ : Node)).isSome
  | [], s, ty, h => by
    rcases h with h | h
    · simp at h
    · exact h
  | ty0 :: rest, s, ty, h => by
    rw [seedNodes]
    apply seedNodes_dist_isSome S rest
    rcases h with h | h
    · rcases List.mem_cons.mp h with h | h
      · subst h
        refine Or.inr ?_
        rw [lookupA_setA_self]; rfl
      · exact Or.inl h
    · exact Or.inr (lookupA_setA_isSome _ h)

theorem lookupA_eq_of_vals {κ α : Type} [DecidableEq κ] {m : List (κ × α)} {k : κ}
    {v0 : α} (hvals : ∀ kv ∈ m, kv.2 = v0) (h : (lookupA m k).isSome) :
    lookupA m k = some v0 := by
  cases hl : lookupA m k with
  | none => rw [hl] at h; cases h
  | some v =>
    have := hvals _ (lookupA_mem hl)
    simp only at this
    rw [this]

theorem seedNodes_zeroInv (S : String) (tys : List String) :
    ZeroInv S tys (seedNodes S tys ⟨[], [], [], []⟩) := by
  have hempty : ∀ kv ∈ ([] : List (Node × ℚ)), kv.2 = (0:ℚ) := by intro kv h; simp at h
  have htv := seedNodes_times_vals S tys ⟨[], [], [], []⟩ hempty
  have hdv := seedNodes_dist_vals S tys ⟨[], [], [], []⟩ hempty
  have hqv := seedNodes_pq_vals S tys ⟨[], [], [], []⟩ hempty
  refine ⟨fun kv hkv => le_of_eq (htv kv hkv).symm,
    fun kv hkv => le_of_eq (hqv kv hkv).symm, ?_⟩
  intro ty hty
  refine ⟨lookupA_eq_of_vals htv (seedNodes_times_isSome S tys _ ty (Or.inl hty)),
    lookupA_eq_of_vals hdv (seedNodes_dist_isSome S tys _ ty (Or.inl hty)), ?_⟩
  rw [seedNodes_prev]
  rfl

theorem selectFold_stay {times : List (Node × ℚ)} {S : String} :
    ∀ (tys : List String) (n0 : Node),
      (∀ ty ∈ tys, lookupA times (⟨S, ty⟩ : Node) = some 0) →
      tys.foldl (selectStep times S) (some n0, some 0) = (some n0, some 0)
  | [], _, _ => rfl
  | ty :: rest, n0, h => by
    rw [List.foldl_cons]
    have hsel : selectStep times S (some n0, some 0) ty = (some n0, some 0) := by
      unfold selectStep
      dsimp only
      rw [h ty (List.mem_cons_self _ _)]
      norm_num
    rw [hsel]
    exact selectFold_stay rest n0 (fun ty' hty' => h ty' (List.mem_cons_of_mem _ hty'))

/-! ## searchRoute bookkeeping lemmas -/

theorem dedupRoutes_subset :
    ∀ (l : List RouteRes) (seen : List (List Node)), ∀ r ∈ dedupRoutes l seen, r ∈ l
  | [], _, r, h => by simp [dedupRoutes] at h
  | r0 :: rest, seen, r, h => by
    rw [dedupRoutes] at h
    by_cases hseen : r0.path ∈ seen
    · rw [if_pos hseen] at h
      exact List.mem_cons_of_mem _ (dedupRoutes_subset rest seen r h)
    · rw [if_neg hseen] at h
      rcases List.mem_cons.mp h with h | h
      · exact h ▸ List.mem_cons_self _ _
      · exact List.mem_cons_of_mem _ (dedupRoutes_subset rest _ r h)

theorem dedupRoutes_not_seen :
    ∀ (l : List RouteRes) (seen : List (List Node)), ∀ r ∈ dedupRoutes l seen,
      r.path ∉ seen
  | [], _, r, h => by simp [dedupRoutes] at h
  | r0 :: rest, seen, r, h => by
    rw [dedupRoutes] at h
    by_cases hseen : r0.path ∈ seen
    · rw [if_pos hseen] at h
      exact dedupRoutes_not_seen rest seen r h
    · rw [if_neg hseen] at h
      rcases List.mem_cons.mp h with h | h
      · exact h ▸ hseen
      · have := dedupRoutes_not_seen rest _ r h
        intro hc
        exact this (List.mem_cons_of_mem _ hc)

theorem dedupRoutes_pairwise :
    ∀ (l : List RouteRes) (seen : List (List Node)),
      List.Pairwise (fun a b => a.path ≠ b.path) (dedupRoutes l seen)
  | [], _ => by simp [dedupRoutes]
  | r0 :: rest, seen => by
    rw [dedupRoutes]
    by_cases hseen : r0.path ∈ seen
    · rw [if_pos hseen]
      exact dedupRoutes_pairwise rest seen
    · rw [if_neg hseen]
      refine List.Pairwise.cons ?_ (dedupRoutes_pairwise rest _)
      intro b hb
      have := dedupRoutes_not_seen rest _ b hb
      intro hc
      exact this (hc ▸ List.mem_cons_self _ _)

theorem mem_prodPairs {fromStations toStations : List Station} {f t : Station} :
    (f, t) ∈ prodPairs fromStations toStations ↔
      f ∈ fromStations ∧ t ∈ toStations := by
  unfold prodPairs
  simp only [List.mem_flatMap, List.mem_map]
  constructor
  · rintro ⟨a, ha, b, hb, heq⟩
    cases heq
    exact ⟨ha, hb⟩
  · rintro ⟨hf, ht⟩
    exact ⟨f, hf, t, ht, rfl⟩

theorem applyPenalty_nodes (p : SearchPattern) (e : Edge) :
    (applyPenalty p e).fromN = e.fromN ∧ (applyPenalty p e).toN = e.toN := by
  unfold applyPenalty
  rcases htp : p.transferPenalty with _ | q <;>
    rcases hep : p.expressPenalty with _ | q' <;>
    dsimp only <;>
    (try split) <;>
    (try split) <;>
    exact ⟨rfl, rfl⟩

theorem separated_map_applyPenalty {p : SearchPattern} {edges : List Edge}
    {stops : List (String × List String)} {a b : String} {R : List Node}
    (h : Separated edges stops a b R) :
    Separated (edges.map (applyPenalty p)) stops a b R := by
  refine ⟨h.1, ?_, h.2.2⟩
  intro e he hfrom
  rcases List.mem_map.mp he with ⟨e0, he0, rfl⟩
  have hn := applyPenalty_nodes p e0
  rw [hn.2]
  exact h.2.1 e0 he0 (by rwa [hn.1] at hfrom)

theorem bestOverPairs_noPath {stations : List Station} {edges : List Edge}
    {stops : List (String × List String)} {om : OrderMap}
    {rules : List ThroughRule} {fuel : Nat} :
    ∀ (pairs : List (Station × Station)) (best out),
      (∀ pr ∈ pairs, ∀ res,
        dijkstra stations edges pr.1.id pr.2.id stops om rules fuel = some res →
        res = .noPath) →
      bestOverPairs stations edges stops om rules fuel pairs best = some out →
      out = best
  | [], best, out, _, h => by
    rw [bestOverPairs] at h
    cases h; rfl
  | pr :: rest, best, out, hall, h => by
    rw [bestOverPairs] at h
    cases hd : dijkstra stations edges pr.1.id pr.2.id stops om rules fuel with
    | none => rw [hd] at h; cases h
    | some res =>
      rw [hd] at h
      have hres := hall pr (List.mem_cons_self _ _) res hd
      subst hres
      dsimp only at h
      exact bestOverPairs_noPath rest best out
        (fun pr' hpr' => hall pr' (List.mem_cons_of_mem _ hpr')) h

theorem collectPatterns_noPath {stations : List Station} {g : Graph}
    {rules : List ThroughRule} {fromSts toSts : List Station} {fuel : Nat} :
    ∀ (pats : List SearchPattern) (acc out : List RouteRes),
      (∀ p ∈ pats, ∀ pr ∈ prodPairs fromSts toSts, ∀ res,
        dijkstra stations (g.edges.map (applyPenalty p)) pr.1.id pr.2.id
          g.stationStops g.stationOrderMap rules fuel = some res → res = .noPath) →
      collectPatterns stations g rules fromSts toSts fuel pats acc = some out →
      out = acc
  | [], acc, out, _, h => by
    rw [collectPatterns] at h
    cases h; rfl
  | p :: rest, acc, out, hall, h => by
    rw [collectPatterns] at h
    cases hbp : bestOverPairs stations (g.edges.map (applyPenalty p)) g.stationStops
        g.stationOrderMap rules fuel (prodPairs fromSts toSts) none with
    | none => rw [hbp] at h; cases h
    | some best =>
      have hbest : best = none :=
        bestOverPairs_noPath _ _ _ (hall p (List.mem_cons_self _ _)) hbp
      subst hbest
      rw [hbp] at h
      dsimp only at h
      exact collectPatterns_noPath rest acc out
        (fun p' hp' => hall p' (List.mem_cons_of_mem _ hp')) h

theorem bestOverPairs_mem {stations : List Station} {edges : List Edge}
    {stops : List (String × List String)} {om : OrderMap}
    {rules : List ThroughRule} {fuel : Nat} :
    ∀ (pairs : List (Station × Station)) (best : Option (List Node × ℚ × ℚ))
      (out : List Node × ℚ × ℚ),
      bestOverPairs stations edges stops om rules fuel pairs best = some (some out) →
      best = some out ∨ ∃ pr ∈ pairs,
        dijkstra stations edges pr.1.id pr.2.id stops om rules fuel =
          some (.found out.1 out.2.1 out.2.2)
  | [], best, out, h => by
    rw [bestOverPairs] at h
    cases h
    exact Or.inl rfl
  | pr :: rest, best, out, h => by
    rw [bestOverPairs] at h
    cases hd : dijkstra stations edges pr.1.id pr.2.id stops om rules fuel with
    | none => rw [hd] at h; cases h
    | some res =>
      rw [hd] at h
      cases res with
      | noPath =>
        dsimp only at h
        rcases bestOverPairs_mem rest best out h with h' | ⟨pr', hpr', hd'⟩
        · exact Or.inl h'
        · exact Or.inr ⟨pr', List.mem_cons_of_mem _ hpr', hd'⟩
      | found p ti d =>
        dsimp only at h
        rcases bestOverPairs_mem rest _ out h with h' | ⟨pr', hpr', hd'⟩
        · cases best with
          | none =>
            simp only [Option.some.injEq] at h'
            exact Or.inr ⟨pr, List.mem_cons_self _ _, h' ▸ hd⟩
          | some b =>
            dsimp only at h'
            by_cases hti : ti < b.2.1
            · rw [if_pos hti] at h'
              simp only [Option.some.injEq] at h'
              exact Or.inr ⟨pr, List.mem_cons_self _ _, h' ▸ hd⟩
            · rw [if_neg hti] at h'
              exact Or.inl h'
        · exact Or.inr ⟨pr', List.mem_cons_of_mem _ hpr', hd'⟩

theorem collectPatterns_mem {stations : List Station} {g : Graph}
    {rules : List ThroughRule} {fromSts toSts : List Station} {fuel : Nat} :
    ∀ (pats : List SearchPattern) (acc out : List RouteRes),
      collectPatterns stations g rules fromSts toSts fuel pats acc = some out →
      ∀ r ∈ out, r ∈ acc ∨ ∃ p ∈ pats, r.searchType = p.type ∧
        ∃ pr ∈ prodPairs fromSts toSts,
          dijkstra stations (g.edges.map (applyPenalty p)) pr.1.id pr.2.id
            g.stationStops g.stationOrderMap rules fuel =
            some (.found r.path r.time r.distance)
  | [], acc, out, h, r, hr => by
    rw [collectPatterns] at h
    cases h
    exact Or.inl hr
  | p :: rest, acc, out, h, r, hr => by
    rw [collectPatterns] at h
    cases hbp : bestOverPairs stations (g.edges.map (applyPenalty p)) g.stationStops
        g.stationOrderMap rules fuel (prodPairs fromSts toSts) none with
    | none => rw [hbp] at h; cases h
    | some best =>
      rw [hbp] at h
      cases best with
      | none =>
        dsimp only at h
        rcases collectPatterns_mem rest acc out h r hr with h' | ⟨p', hp', hty, hrest⟩
        · exact Or.inl h'
        · exact Or.inr ⟨p', List.mem_cons_of_mem _ hp', hty, hrest⟩
      | some b =>
        dsimp only at h
        rcases collectPatterns_mem rest _ out h r hr with h' | ⟨p', hp', hty, hrest⟩
        · rcases List.mem_append.mp h' with h'' | h''
          · exact Or.inl h''
          · simp only [List.mem_singleton] at h''
            subst h''
            rcases bestOverPairs_mem _ _ _ hbp with hb | ⟨pr, hpr, hd⟩
            · cases hb
            · exact Or.inr ⟨p, List.mem_cons_self _ _, rfl, pr, hpr, hd⟩
        · exact Or.inr ⟨p', List.mem_cons_of_mem _ hp', hty, hrest⟩

/-- How the final result list of `searchRoute` is assembled from the
per-pattern results. -/
theorem searchRoute_routes_spec {stations : List Station} {services : List Service}
    {rules : List ThroughRule} {fromName toName : String} {fuel : Nat} {g : Graph}
    {rs : List RouteRes} (hg : buildGraph stations services rules = some g)
    (h : searchRoute stations services rules fromName toName fuel =
      some (.routes rs)) :
    ∃ allResults, collectPatterns stations g rules
        (stations.filter (fun s => s.name = fromName))
        (stations.filter (fun s => s.name = toName)) fuel searchPatterns [] =
        some allResults ∧
      rs = ((dedupRoutes (allResults.map (recompute g.edges)) []).insertionSort
        resLE).take 3 := by
  unfold searchRoute at h
  rw [hg] at h
  dsimp only at h
  by_cases hemp : ((stations.filter (fun s => s.name = fromName)).isEmpty = true) ∨
      ((stations.filter (fun s => s.name = toName)).isEmpty = true)
  · rw [if_pos hemp] at h
    simp at h
  · rw [if_neg hemp] at h
    cases hcp : collectPatterns stations g rules
        (stations.filter (fun s => s.name = fromName))
        (stations.filter (fun s => s.name = toName)) fuel searchPatterns [] with
    | none => rw [hcp] at h; cases h
    | some allResults =>
      rw [hcp] at h
      dsimp only at h
      by_cases hae : allResults.isEmpty = true
      · rw [if_pos hae] at h
        simp at h
      · rw [if_neg hae] at h
        refine ⟨allResults, rfl, ?_⟩
        simp only [Option.some.injEq, SearchOutcome.routes.injEq] at h
        exact h.symm

/-- Claim C10, engine part: over edges with nonnegative times, a
terminating search from a station to itself returns the single presence
node of its first registered service type at cost and distance zero. -/
theorem dijkstra_self {stations : List Station} {edges : List Edge} {S : String}
    {stationStops : List (String × List String)} {orderMap : OrderMap}
    {rules : List ThroughRule} {fuel : Nat} {res : DijkResult} {types : List String}
    (hedges : ∀ e ∈ edges, 0 ≤ e.time)
    (hstops : lookupA stationStops S = some types) (hne : types ≠ [])
    (h : dijkstra stations edges S S stationStops orderMap rules fuel = some res) :
    ∃ ty, types.head? = some ty ∧ res = .found [⟨S, ty⟩] 0 0 := by
  unfold dijkstra at h
  dsimp only at h
  rw [hstops] at h
  simp only [Option.getD_some] at h
  cases hloop : dijkstraLoop stations edges S S orderMap rules fuel
      (seedNodes S types ⟨[], [], [], []⟩) with
  | none => rw [hloop] at h; cases h
  | some sf =>
    rw [hloop] at h
    dsimp only at h
    have hsf : ZeroInv S types sf := by
      refine dijkstraLoop_inv ?_ fuel _ sf (seedNodes_zeroInv S types) hloop
      intro s node time rest hsort hP
      have hpop : (node, time) ∈ s.pq := by
        have : (node, time) ∈ s.pq.insertionSort pqLE := by
          rw [hsort]; exact List.mem_cons_self _ _
        exact ((s.pq.perm_insertionSort pqLE).mem_iff).mp this
      have hrest : ZeroInv S types { s with pq := rest } := by
        refine ⟨hP.1, ?_, hP.2.2⟩
        intro kv hkv
        have : kv ∈ s.pq.insertionSort pqLE := by
          rw [hsort]; exact List.mem_cons_of_mem _ hkv
        exact hP.2.1 kv (((s.pq.perm_insertionSort pqLE).mem_iff).mp this)
      refine ⟨hrest, ?_⟩
      apply foldl_preserve (P := ZeroInv S types)
      · intro s'' edge hedge hs''
        exact relaxEdge_zeroInv hedges (hP.2.1 _ hpop) hedge hs''
      · exact hrest
    cases types with
    | nil => exact absurd rfl hne
    | cons ty0 rest =>
      obtain ⟨ht0, hd0, hp0⟩ := hsf.2.2 ty0 (List.mem_cons_self _ _)
      have hsel1 : selectStep sf.times S (none, none) ty0 =
          (some (⟨S, ty0⟩ : Node), some 0) := by
        unfold selectStep
        dsimp only
        rw [ht0]
      rw [List.foldl_cons, hsel1,
        selectFold_stay rest _ (fun ty' hty' =>
          (hsf.2.2 ty' (List.mem_cons_of_mem _ hty')).1)] at h
      have hrec : reconstructPath sf.prev (sf.prev.length + 1) (⟨S, ty0⟩ : Node) [] =
          some [⟨S, ty0⟩] := by
        simp only [reconstructPath]
        rw [hp0]
      dsimp only at h
      rw [hrec] at h
      dsimp only at h
      rw [hd0] at h
      cases h
      exact ⟨ty0, rfl, rfl⟩

/-! ## Claim theorems -/

/-- C1 (amended): for every edge (A→B) built by `buildGraph`, an edge
(B→A) exists with identical time, distance, type and line; the company
field of the two directions of a same-coordinate (pass 4) pair carries each
direction's own source-station company, so it need not match. -/
theorem c1_mirror_amended (stations : List Station) (services : List Service)
    (throughServices : List ThroughRule) (g : Graph)
    (hg : buildGraph stations services throughServices = some g) :
    ∀ e ∈ g.edges, ∃ e' ∈ g.edges, e'.fromN = e.toN ∧ e'.toN = e.fromN ∧
      e'.time = e.time ∧ e'.dist = e.dist ∧ e'.type = e.type ∧ e'.line = e.line :=
  (buildGraph_good hg).1

/-- C2 (amended): during relaxation, a candidate walking or in-station
transfer edge out of a node with a recorded predecessor is rejected when
the first listed edge from that predecessor to the node is a transfer or
through edge; same-station transfer and through candidates are not
guarded, so a returned path can still contain two adjacent transfer-like
edges. -/
theorem c2_no_consec_amended (stations : List Station) (edges : List Edge)
    (startId goalId : String) (orderMap : OrderMap) (rules : List ThroughRule)
    (prev : List (Node × Node)) (node : Node) (edge : Edge)
    (prevNode : Node) (prevEdge : Edge)
    (h1 : edge.type = "乗換") (h2 : edge.line = "徒歩" ∨ edge.line = "構内乗換")
    (h3 : lookupA prev node = some prevNode)
    (h4 : findEdge edges prevNode node = some prevEdge)
    (h5 : prevEdge.type = "乗換" ∨ prevEdge.type = "直通") :
    edgeAllowed stations edges startId goalId orderMap rules prev node edge = false := by
  have hrej : rejectConsecTransfer edges prev node edge = true := by
    unfold rejectConsecTransfer
    rw [h3]
    dsimp only
    rw [h4]
    simp [h1, h2, h5]
  unfold edgeAllowed
  rw [hrej]
  rfl

/-- C4 (amended): the ride-edge accumulation sums the cached distances of
the intermediate physical hops (hops missing from the cache contribute
nothing), and every ride edge of a built graph carries
`time = dist / TRAIN_SPEED + STOP_TIME` — a single dwell, not the sum of
the cached per-hop times. -/
theorem c4_ride_cost_amended :
    (∀ (segs : List (SegKey × Seg)) (fullIds : List String) (idxFrom idxTo : Nat),
      hopDist segs fullIds idxFrom idxTo =
        ((hopIndices idxFrom idxTo).map (fun j =>
          match lookupA segs (hopKey fullIds idxFrom idxTo j) with
          | some segData => segData.dist
          | none => 0)).sum) ∧
    (∀ (stations : List Station) (services : List Service)
      (throughServices : List ThroughRule) (g : Graph),
      buildGraph stations services throughServices = some g →
      ∀ e ∈ g.edges, e.type ≠ "乗換" → e.type ≠ "直通" →
        e.time = e.dist / TRAIN_SPEED + STOP_TIME) :=
  ⟨hopDist_eq_sum,
   fun _ _ _ _ hg e he h1 h2 => ((buildGraph_good hg).2 e he).2.2 h1 h2⟩

/-- C5: every result reported by `searchRoute` carries the time and the
distance obtained by re-summing the original, unpenalized edge weights
along its node sequence; no profile penalty contributes. -/
theorem c5_true_costs (stations : List Station) (services : List Service)
    (rules : List ThroughRule) (fromName toName : String) (fuel : Nat)
    (g : Graph) (rs : List RouteRes)
    (hg : buildGraph stations services rules = some g)
    (h : searchRoute stations services rules fromName toName fuel =
      some (.routes rs)) :
    ∀ r ∈ rs, r.time = trueTime g.edges r.path ∧
      r.distance = trueDistance g.edges r.path := by
  obtain ⟨allResults, _, hrs⟩ := searchRoute_routes_spec hg h
  intro r hr
  rw [hrs] at hr
  have h1 : r ∈ (dedupRoutes (allResults.map (recompute g.edges)) []).insertionSort
      resLE := (List.take_sublist _ _).subset hr
  have h2 : r ∈ dedupRoutes (allResults.map (recompute g.edges)) [] :=
    (List.mem_insertionSort resLE).mp h1
  have h3 := dedupRoutes_subset _ _ r h2
  rcases List.mem_map.mp h3 with ⟨r0, _, rfl⟩
  exact ⟨rfl, rfl⟩

/-- C6: the final list of `searchRoute` has pairwise distinct node
sequences, is sorted ascending by recomputed true time, has at most three
entries, and each entry is tagged with a profile whose penalized search
produced its path. -/
theorem c6_result_list (stations : List Station) (services : List Service)
    (rules : List ThroughRule) (fromName toName : String) (fuel : Nat)
    (g : Graph) (rs : List RouteRes)
    (hg : buildGraph stations services rules = some g)
    (h : searchRoute stations services rules fromName toName fuel =
      some (.routes rs)) :
    List.Pairwise (fun a b => a.path ≠ b.path) rs ∧
    List.Pairwise (fun a b => a.time ≤ b.time) rs ∧
    rs.length ≤ 3 ∧
    (∀ r ∈ rs, ∃ p ∈ searchPatterns, r.searchType = p.type ∧
      ∃ f t, f ∈ stations.filter (fun s => s.name = fromName) ∧
        t ∈ stations.filter (fun s => s.name = toName) ∧
        ∃ pt pd, dijkstra stations (g.edges.map (applyPenalty p)) f.id t.id
          g.stationStops g.stationOrderMap rules fuel =
          some (.found r.path pt pd)) := by
  obtain ⟨allResults, hcp, hrs⟩ := searchRoute_routes_spec hg h
  have hsub3 : List.Sublist rs ((dedupRoutes (allResults.map (recompute g.edges))
      []).insertionSort resLE) := hrs ▸ List.take_sublist _ _
  refine ⟨?_, ?_, ?_, ?_⟩
  · refine List.Pairwise.sublist hsub3 ?_
    have hperm := (dedupRoutes (allResults.map (recompute g.edges))
      []).perm_insertionSort resLE
    refine (List.Perm.pairwise_iff ?_ hperm).mpr (dedupRoutes_pairwise _ _)
    intro a b hab
    exact fun hba => hab hba.symm
  · have hsorted := List.sorted_insertionSort resLE
      (dedupRoutes (allResults.map (recompute g.edges)) [])
    exact (List.Pairwise.sublist hsub3 hsorted).imp (fun hle => hle)
  · rw [hrs, List.length_take]
    exact min_le_left _ _
  · intro r hr
    have h2 : r ∈ dedupRoutes (allResults.map (recompute g.edges)) [] :=
      (List.mem_insertionSort resLE).mp (hsub3.subset hr)
    have h3 := dedupRoutes_subset _ _ r h2
    rcases List.mem_map.mp h3 with ⟨r0, hr0, rfl⟩
    rcases collectPatterns_mem _ _ _ hcp r0 hr0 with h' | ⟨p, hp, hty, pr, hpr, hd⟩
    · simp at h'
    · obtain ⟨f, t⟩ := pr
      have hmem := mem_prodPairs.mp hpr
      exact ⟨p, hp, hty, f, t, hmem.1, hmem.2, r0.time, r0.distance, hd⟩

/-- C8: with no presence node of the goal reachable from the start's
presence nodes (witnessed by an edge-closed separating node set), every
terminating `dijkstra` call returns the explicit no-path value, and when
this holds for every profile and candidate station pair, `searchRoute`
reports the empty no-route outcome. -/
theorem c8_unreachable :
    (∀ (stations : List Station) (edges : List Edge) (startId goalId : String)
      (stops : List (String × List String)) (orderMap : OrderMap)
      (rules : List ThroughRule) (fuel : Nat) (res : DijkResult) (R : List Node),
      Separated edges stops startId goalId R →
      dijkstra stations edges startId goalId stops orderMap rules fuel = some res →
      res = .noPath) ∧
    (∀ (stations : List Station) (services : List Service)
      (rules : List ThroughRule) (fromName toName : String) (fuel : Nat)
      (g : Graph) (out : SearchOutcome),
      buildGraph stations services rules = some g →
      searchRoute stations services rules fromName toName fuel = some out →
      (stations.filter (fun s => s.name = fromName)).isEmpty = false →
      (stations.filter (fun s => s.name = toName)).isEmpty = false →
      (∀ f ∈ stations.filter (fun s => s.name = fromName),
       ∀ t ∈ stations.filter (fun s => s.name = toName),
        ∃ R, Separated g.edges g.stationStops f.id t.id R) →
      out = .noRoute) := by
  constructor
  · intro stations edges startId goalId stops orderMap rules fuel res R hsep h
    exact dijkstra_noPath_of_separated hsep h
  · intro stations services rules fromName toName fuel g out hg h hfrom hto hsep
    unfold searchRoute at h
    rw [hg] at h
    dsimp only at h
    have hemp : ¬ (((stations.filter (fun s => s.name = fromName)).isEmpty = true) ∨
        ((stations.filter (fun s => s.name = toName)).isEmpty = true)) := by
      rw [hfrom, hto]; simp
    rw [if_neg hemp] at h
    cases hcp : collectPatterns stations g rules
        (stations.filter (fun s => s.name = fromName))
        (stations.filter (fun s => s.name = toName)) fuel searchPatterns [] with
    | none => rw [hcp] at h; cases h
    | some allResults =>
      have hempty : allResults = [] := by
        refine collectPatterns_noPath _ _ _ ?_ hcp
        intro p _ pr hpr res hres
        obtain ⟨f, t⟩ := pr
        have hmem := mem_prodPairs.mp hpr
        obtain ⟨R, hR⟩ := hsep f hmem.1 t hmem.2
        exact dijkstra_noPath_of_separated (separated_map_applyPenalty hR) hres
      subst hempty
      rw [hcp] at h
      dsimp only at h
      rw [if_pos (show (List.isEmpty ([] : List RouteRes)) = true from rfl)] at h
      cases h
      rfl

/-- C9: a through edge survives the relaxation checks only when a rule
lists exactly its (from, to) station pair together with both stations'
companies and lines and the base service type, whereas the pass-4 builder
upgrades a co-located pair to the mirrored through pair when a rule matches
the station pair in either order. -/
theorem c9_through_gating :
    (∀ (stations : List Station) (edges : List Edge) (startId goalId : String)
      (orderMap : OrderMap) (rules : List ThroughRule)
      (prev : List (Node × Node)) (node : Node) (edge : Edge),
      edge.type = "直通" →
      edgeAllowed stations edges startId goalId orderMap rules prev node edge = true →
      ∃ ts ∈ rules, ts.stationIdA = node.stationId ∧
        ts.stationIdB = edge.toN.stationId ∧
        (∃ fromSt toSt, stations.find? (fun s => s.id = node.stationId) = some fromSt ∧
          stations.find? (fun s => s.id = edge.toN.stationId) = some toSt ∧
          ts.companyA = fromSt.company ∧ ts.lineA = fromSt.line ∧
          ts.companyB = toSt.company ∧ ts.lineB = toSt.line) ∧
        baseTypeOf node.serviceType ∈ ts.types) ∧
    (∀ (rules : List ThroughRule) (sA sB : Station) (typeA typeB : String)
      (r : ThroughRule),
      baseTypeOf typeA = baseTypeOf typeB →
      rules.find? (fun ts =>
        (ts.stationIdA = sA.id ∧ ts.stationIdB = sB.id) ∨
        (ts.stationIdA = sB.id ∧ ts.stationIdB = sA.id)) = some r →
      baseTypeOf typeA ∈ r.types →
      colocatedEdgeInfo rules sA sB typeA typeB =
        ("直通", "直通", THROUGH_SERVICE_TIME)) := by
  constructor
  · intro stations edges startId goalId orderMap rules prev node edge hty hall
    simp only [edgeAllowed, Bool.and_eq_true, Bool.not_eq_true'] at hall
    have hrt := hall.1.1.2
    unfold rejectThrough at hrt
    rw [hty] at hrt
    rw [show (decide (("直通" : String) = "直通")) = true from by decide,
      Bool.true_and] at hrt
    cases hprev : lookupA prev node with
    | none => rw [hprev] at hrt; cases hrt
    | some prevNode =>
      rw [hprev] at hrt
      dsimp only at hrt
      cases hf1 : stations.find? (fun s => s.id = node.stationId) with
      | none => rw [hf1] at hrt; cases hrt
      | some fromSt =>
        rw [hf1] at hrt
        cases hf2 : stations.find? (fun s => s.id = edge.toN.stationId) with
        | none => rw [hf2] at hrt; cases hrt
        | some toSt =>
          rw [hf2] at hrt
          cases hf3 : stations.find? (fun s => s.id = prevNode.stationId) with
          | none => rw [hf3] at hrt; cases hrt
          | some prevSt =>
            rw [hf3] at hrt
            dsimp only at hrt
            cases hrule : rules.find? (fun ts =>
                ts.stationIdA = node.stationId ∧
                ts.stationIdB = edge.toN.stationId ∧
                ts.companyA = fromSt.company ∧ ts.lineA = fromSt.line ∧
                ts.companyB = toSt.company ∧ ts.lineB = toSt.line ∧
                baseTypeOf node.serviceType ∈ ts.types) with
            | none => rw [hrule] at hrt; cases hrt
            | some rule =>
              have hmem := List.mem_of_find?_eq_some hrule
              have hpred := List.find?_some hrule
              simp only [decide_eq_true_eq] at hpred
              exact ⟨rule, hmem, hpred.1, hpred.2.1,
                ⟨fromSt, toSt, rfl, rfl, hpred.2.2.1, hpred.2.2.2.1,
                  hpred.2.2.2.2.1, hpred.2.2.2.2.2.1⟩, hpred.2.2.2.2.2.2⟩
  · intro rules sA sB typeA typeB r hbase hfind hty
    unfold colocatedEdgeInfo
    rw [if_pos hbase, hfind]
    dsimp only
    rw [if_pos hty]

/-- C10: searching a station (that has at least one registered service
type) against itself over a built graph returns the single presence node
of its first registered type at accumulated time and distance zero. -/
theorem c10_self_search (stations : List Station) (services : List Service)
    (rules : List ThroughRule) (startId : String) (fuel : Nat) (g : Graph)
    (types : List String) (res : DijkResult)
    (hg : buildGraph stations services rules = some g)
    (hstops : lookupA g.stationStops startId = some types) (hne : types ≠ [])
    (hres : dijkstra stations g.edges startId startId g.stationStops
      g.stationOrderMap rules fuel = some res) :
    ∃ ty, types.head? = some ty ∧ res = .found [⟨startId, ty⟩] 0 0 :=
  dijkstra_self (fun e he => ((buildGraph_good hg).2 e he).1) hstops hne hres

/-! ## Concrete evaluations: counterexamples, crash witnesses, witnesses -/

section ConcreteEvaluations

attribute [local semireducible] Rat.add Rat.mul Rat.inv Rat.sub

/-- C1 (counterexample): on `ex1` (two co-located stations of different
companies) the in-station transfer edge A1→B1 carries company 会社X while
its only reverse companion carries 会社Y, so no reverse edge with all five
fields identical exists. -/
theorem c1_mirror_counterexample :
    buildGraph ex1Stations ex1Services [] = some ex1Graph ∧
    ∃ e ∈ ex1Graph.edges, ¬ ∃ e' ∈ ex1Graph.edges,
      e'.fromN = e.toN ∧ e'.toN = e.fromN ∧ e'.time = e.time ∧
      e'.dist = e.dist ∧ e'.type = e.type ∧ e'.company = e.company ∧
      e'.line = e.line := by
  decide

/-- C1 (witness): the amended mirror invariant applied to the A1→B1
in-station transfer edge of `ex1`. -/
theorem c1_mirror_amended_witness :
    ∃ e' ∈ ex1Graph.edges,
      e'.fromN = (⟨"B1", "普通"⟩ : Node) ∧ e'.toN = (⟨"A1", "普通"⟩ : Node) ∧
      e'.time = 10 ∧ e'.dist = 0 ∧ e'.type = "乗換" ∧ e'.line = "構内乗換" :=
  c1_mirror_amended ex1Stations ex1Services [] ex1Graph (by decide)
    ⟨⟨"A1", "普通"⟩, ⟨"B1", "普通"⟩, 10, 0, "乗換", "会社X", "構内乗換"⟩ (by decide)

/-- C2 (counterexample): on `ex2` the returned best path crosses 亀川
(NY10) through two adjacent same-station transfer edges
(普通 → 快速 → 普通(南)), so a returned path can contain two adjacent
transfer-like edges. -/
theorem c2_no_consec_counterexample :
    dijkstra ex2Stations ex2Graph.edges "S1" "G1" ex2Graph.stationStops
      ex2Graph.stationOrderMap [] 40 = some (.found ex2Path 80 600) ∧
    hasConsecTransferLike ex2Graph.edges ex2Path = true := by
  decide

/-- C2 (witness): the amended relaxation rule rejecting a walking edge
whose node was reached by a transfer edge. -/
theorem c2_no_consec_witness :
    edgeAllowed [] [c2prevEdge] "WS" "WG" [] [] c2prev c2node c2edge = false :=
  c2_no_consec_amended [] [c2prevEdge] "WS" "WG" [] [] c2prev c2node c2edge
    (⟨"WP", "普通"⟩ : Node) c2prevEdge rfl (Or.inl rfl) (by decide) (by decide)
    (Or.inl rfl)

/-- C3: `buildGraph` faults (modelled by `none`) on an input whose stop
lists register station id M1 with two service types while M1 is absent
from the station list — pass 3 reads `station.company` off the failed
lookup instead of skipping the entry. -/
theorem c3_missing_station_crash : buildGraph [] ex3Services [] = none := by
  decide

/-- C4 (counterexample): on `ex4` the express edge A1→C1 spans the two
cached hops A1-B1 and B1-C1; its recorded time is 45 = 600/15 + 5 with a
single dwell, while the sum of the cached per-hop times is 50. -/
theorem c4_ride_cost_counterexample :
    buildGraph ex4Stations ex4Services [] = some ex4Graph ∧
    ((lookupA ex4Graph.stationOrderMap ("会", "本線")).getD []).map Prod.fst =
      ["A1", "B1", "C1"] ∧
    findEdge ex4Graph.edges ⟨"A1", "快速"⟩ ⟨"C1", "快速"⟩ =
      some ⟨⟨"A1", "快速"⟩, ⟨"C1", "快速"⟩, 45, 600, "快速", "会", "本線"⟩ ∧
    hopTimeSum ex4Segs ["A1", "B1", "C1"] 0 2 = 50 ∧
    ((45 : ℚ) = 50 → False) := by
  decide

/-- C4 (witness): the amended ride cost facts at the `ex4` express edge. -/
theorem c4_ride_cost_witness :
    (Edge.mk ⟨"A1", "快速"⟩ ⟨"C1", "快速"⟩ 45 600 "快速" "会" "本線").time =
      (Edge.mk ⟨"A1", "快速"⟩ ⟨"C1", "快速"⟩ 45 600 "快速" "会" "本線").dist /
        TRAIN_SPEED + STOP_TIME ∧
    hopDist ex4Segs ["A1", "B1", "C1"] 0 2 =
      ((hopIndices 0 2).map (fun j =>
        match lookupA ex4Segs (hopKey ["A1", "B1", "C1"] 0 2 j) with
        | some segData => segData.dist
        | none => 0)).sum :=
  ⟨c4_ride_cost_amended.2 ex4Stations ex4Services [] ex4Graph (by decide) _
      (by decide) (by decide) (by decide),
   c4_ride_cost_amended.1 ex4Segs ["A1", "B1", "C1"] 0 2⟩

/-- C5 (witness): the single result reported on `ex2` carries the
re-summed unpenalized time and distance. -/
theorem c5_true_costs_witness :
    ex2Res.time = trueTime ex2Graph.edges ex2Res.path ∧
    ex2Res.distance = trueDistance ex2Graph.edges ex2Res.path :=
  c5_true_costs ex2Stations ex2Services [] "須田" "郷田" 80 ex2Graph [ex2Res]
    (by decide) (by decide) ex2Res (by decide)

/-- C6 (witness): the final list facts applied to the `ex2` search. -/
theorem c6_result_list_witness :
    List.Pairwise (fun a b => a.path ≠ b.path) [ex2Res] ∧
    List.Pairwise (fun a b => a.time ≤ b.time) [ex2Res] ∧
    ([ex2Res] : List RouteRes).length ≤ 3 ∧
    (∀ r ∈ [ex2Res], ∃ p ∈ searchPatterns, r.searchType = p.type ∧
      ∃ f t, f ∈ ex2Stations.filter (fun s => s.name = "須田") ∧
        t ∈ ex2Stations.filter (fun s => s.name = "郷田") ∧
        ∃ pt pd, dijkstra ex2Stations (ex2Graph.edges.map (applyPenalty p)) f.id
          t.id ex2Graph.stationStops ex2Graph.stationOrderMap [] 80 =
          some (.found r.path pt pd)) :=
  c6_result_list ex2Stations ex2Services [] "須田" "郷田" 80 ex2Graph [ex2Res]
    (by decide) (by decide)

/-- C7: the relaxation accepts the ride edge B1→C1 of `ex4` although a
search from A1 to B1 spans the ordinal range 0..1 and C1 sits at ordinal 2
— the range-check block of the source is an empty placeholder and rejects
nothing. -/
theorem c7_range_check_missing :
    c7edge ∈ ex4Graph.edges ∧
    lookupA ((lookupA ex4Graph.stationOrderMap ("会", "本線")).getD []) "A1" =
      some 0 ∧
    lookupA ((lookupA ex4Graph.stationOrderMap ("会", "本線")).getD []) "B1" =
      some 1 ∧
    lookupA ((lookupA ex4Graph.stationOrderMap ("会", "本線")).getD []) "C1" =
      some 2 ∧
    edgeAllowed ex4Stations ex4Graph.edges "A1" "B1" ex4Graph.stationOrderMap []
      c7prev ⟨"B1", "普通"⟩ c7edge = true := by
  decide

/-- C8 (witness): the engine part applied to the two disconnected lines of
`ex5`, with the explicit separating set of the P1 line's presence nodes. -/
theorem c8_unreachable_witness :
    Separated ex5Graph.edges ex5Graph.stationStops "P1" "U1"
      [⟨"P1", "普通"⟩, ⟨"Q1", "普通"⟩] ∧
    dijkstra ex5Stations ex5Graph.edges "P1" "U1" ex5Graph.stationStops
      ex5Graph.stationOrderMap [] 60 = some DijkResult.noPath := by
  refine ⟨by decide, ?_⟩
  obtain ⟨res, hres⟩ : ∃ r, dijkstra ex5Stations ex5Graph.edges "P1" "U1"
      ex5Graph.stationStops ex5Graph.stationOrderMap [] 60 = some r := ⟨_, rfl⟩
  rw [hres,
    c8_unreachable.1 ex5Stations ex5Graph.edges "P1" "U1" ex5Graph.stationStops
      ex5Graph.stationOrderMap [] 60 res [⟨"P1", "普通"⟩, ⟨"Q1", "普通"⟩]
      (by decide) hres]

/-- C9 (witness): the exact-order acceptance condition at a concrete
through relaxation, and the either-order upgrade of pass 4 with a rule
listing the station pair reversed. -/
theorem c9_through_gating_witness :
    (∃ ts ∈ [c9rule], ts.stationIdA = "TA" ∧ ts.stationIdB = "TB" ∧
      (∃ fromSt toSt, c9stations.find? (fun s => s.id = "TA") = some fromSt ∧
        c9stations.find? (fun s => s.id = "TB") = some toSt ∧
        ts.companyA = fromSt.company ∧ ts.lineA = fromSt.line ∧
        ts.companyB = toSt.company ∧ ts.lineB = toSt.line) ∧
      baseTypeOf "普通" ∈ ts.types) ∧
    colocatedEdgeInfo [c9ruleRev] c9stA c9stB "普通" "普通" =
      ("直通", "直通", THROUGH_SERVICE_TIME) :=
  ⟨c9_through_gating.1 c9stations [] "s" "g" [] [c9rule] c9prev c9node c9edge
      rfl (by decide),
   c9_through_gating.2 [c9ruleRev] c9stA c9stB "普通" "普通" c9ruleRev rfl
      (by decide) (by decide)⟩

/-- C10 (witness): searching A1 against itself on `ex4` yields the single
presence node of its first registered type at time and distance zero. -/
theorem c10_self_search_witness :
    dijkstra ex4Stations ex4Graph.edges "A1" "A1" ex4Graph.stationStops
      ex4Graph.stationOrderMap [] 40 = some (.found [⟨"A1", "普通"⟩] 0 0) := by
  obtain ⟨res, hres⟩ : ∃ r, dijkstra ex4Stations ex4Graph.edges "A1" "A1"
      ex4Graph.stationStops ex4Graph.stationOrderMap [] 40 = some r := ⟨_, rfl⟩
  obtain ⟨ty, hty, hr⟩ := c10_self_search ex4Stations ex4Services [] "A1" 40
    ex4Graph ["普通", "快速"] res (by decide) (by decide) (by decide) hres
  simp only [List.head?_cons, Option.some.injEq] at hty
  subst hty
  rw [hres, hr]

end ConcreteEvaluations

end MofuRail
